import Mathlib

/-!
Verification of the EUDR-Tools core pipelines against their specification.

The development shallowly embeds the three core modules:

* `core/merge_geojson_lib.py` — feature fingerprinting (`feature_hash`),
  normalisation (`to_features`), bounding boxes (`compute_bbox`) and the
  merge fold with collision-safe output naming (`merge_geojson`);
* `core/csv_to_geojson_lib.py` — column-alias resolution (`resolve_columns`,
  `COLUMN_ALIASES`) and the per-group geometry choice of
  `convert_csv_to_geojson`;
* `core/extract_embedded_lib.py` — the text-scrubbing recovery
  (`clean_json_from_bin`) and the container-processing state machine of
  `extract_embedded`, including its temporary-directory lifecycle.

Parsed JSON documents are modelled by the inductive type `Json` below; Python
dicts become association lists in insertion order (Python dicts preserve
insertion order and have unique keys), Python numbers become rationals, and a
Python exception raised by a modelled code path becomes `none` / `.error`.
-/

inductive Json where
  | null
  | bool (b : Bool)
  | num (q : ℚ)
  | str (s : String)
  | arr (xs : List Json)
  | obj (kvs : List (String × Json))

mutual

def jbeq : Json → Json → Bool
  | .null, .null => true
  | .bool a, .bool b => a == b
  | .num a, .num b => decide (a = b)
  | .str a, .str b => a == b
  | .arr a, .arr b => jbeqList a b
  | .obj a, .obj b => jbeqKV a b
  | _, _ => false

def jbeqList : List Json → List Json → Bool
  | [], [] => true
  | x :: xs, y :: ys => jbeq x y && jbeqList xs ys
  | _, _ => false

def jbeqKV : List (String × Json) → List (String × Json) → Bool
  | [], [] => true
  | (k, v) :: xs, (l, w) :: ys => k == l && jbeq v w && jbeqKV xs ys
  | _, _ => false

end

mutual

theorem jbeq_iff : ∀ a b : Json, jbeq a b = true ↔ a = b
  | .null, .null => by simp [jbeq]
  | .bool _, .bool _ => by simp [jbeq]
  | .num _, .num _ => by simp [jbeq]
  | .str _, .str _ => by simp [jbeq]
  | .arr a, .arr b => by simp [jbeq, jbeqList_iff a b]
  | .obj a, .obj b => by simp [jbeq, jbeqKV_iff a b]
  | .null, .bool _ | .null, .num _ | .null, .str _ | .null, .arr _ | .null, .obj _
  | .bool _, .null | .bool _, .num _ | .bool _, .str _ | .bool _, .arr _ | .bool _, .obj _
  | .num _, .null | .num _, .bool _ | .num _, .str _ | .num _, .arr _ | .num _, .obj _
  | .str _, .null | .str _, .bool _ | .str _, .num _ | .str _, .arr _ | .str _, .obj _
  | .arr _, .null | .arr _, .bool _ | .arr _, .num _ | .arr _, .str _ | .arr _, .obj _
  | .obj _, .null | .obj _, .bool _ | .obj _, .num _ | .obj _, .str _ | .obj _, .arr _ => by
      simp [jbeq]

theorem jbeqList_iff : ∀ a b : List Json, jbeqList a b = true ↔ a = b
  | [], [] => by simp [jbeqList]
  | x :: xs, y :: ys => by simp [jbeqList, jbeq_iff x y, jbeqList_iff xs ys]
  | [], _ :: _ | _ :: _, [] => by simp [jbeqList]

theorem jbeqKV_iff : ∀ a b : List (String × Json), jbeqKV a b = true ↔ a = b
  | [], [] => by simp [jbeqKV]
  | (k, v) :: xs, (l, w) :: ys => by
      simp only [jbeqKV, Bool.and_eq_true, beq_iff_eq, jbeq_iff v w, jbeqKV_iff xs ys,
        List.cons.injEq, Prod.mk.injEq, and_assoc]
  | [], _ :: _ | _ :: _, [] => by simp [jbeqKV]

end

instance : DecidableEq Json := fun a b => decidable_of_iff _ (jbeq_iff a b)

instance exceptDecEq {α β : Type} [DecidableEq α] [DecidableEq β] :
    DecidableEq (Except α β) := fun a b =>
  match a, b with
  | .error x, .error y =>
    if h : x = y then isTrue (by rw [h]) else isFalse (fun hc => by cases hc; exact h rfl)
  | .ok x, .ok y =>
    if h : x = y then isTrue (by rw [h]) else isFalse (fun hc => by cases hc; exact h rfl)
  | .error _, .ok _ => isFalse (fun hc => by cases hc)
  | .ok _, .error _ => isFalse (fun hc => by cases hc)


/-- Python `d.get(key)` on a dict modelled as an association list: first
matching key wins (Python dicts have unique keys, so this is faithful). -/
def objGet : List (String × Json) → String → Option Json
  | [], _ => none
  | (k, v) :: rest, key => if k = key then some v else objGet rest key

/-- Python `d[key] = v` on a dict: overwrite the entry in place if the key is
present, otherwise append the new entry at the end (insertion order). -/
def objSet (kvs : List (String × Json)) (key : String) (v : Json) : List (String × Json) :=
  if kvs.any (fun kv => kv.1 = key) then
    kvs.map (fun kv => if kv.1 = key then (key, v) else kv)
  else kvs ++ [(key, v)]

/-- Python truthiness of a parsed JSON value (`if not geom: ...`). -/
def falsy : Json → Bool
  | .null => true
  | .bool b => !b
  | .num q => decide (q = 0)
  | .str s => s == ""
  | .arr xs => xs.isEmpty
  | .obj kvs => kvs.isEmpty

/-- Lexicographic comparison of character lists by code point, the order in
which Python compares strings (and hence the order `json.dumps(sort_keys=True)`
sorts object keys). -/
def lexLe : List Char → List Char → Bool
  | [], _ => true
  | _ :: _, [] => false
  | a :: as, b :: bs =>
    if a.toNat < b.toNat then true
    else if a.toNat = b.toNat then lexLe as bs
    else false

/-- Key order used by the canonical serialization: compare the key strings. -/
def kvLe (a b : String × Json) : Prop := lexLe a.1.data b.1.data = true

instance : DecidableRel kvLe := fun a b => by
  unfold kvLe; infer_instance

/-- Sort an object's entries by key, as `json.dumps(..., sort_keys=True)`
does before serializing a dict. -/
def sortKV (kvs : List (String × Json)) : List (String × Json) :=
  kvs.insertionSort kvLe

mutual

/-- Canonical form of a JSON value: every object's entries sorted by key,
recursively.  `json.dumps(v, sort_keys=True)` is injective on parsed JSON
values and serializes exactly this canonical form, so two values get the same
serialization iff their canonical forms are equal. -/
def canonJson : Json → Json
  | .null => .null
  | .bool b => .bool b
  | .num q => .num q
  | .str s => .str s
  | .arr xs => .arr (canonList xs)
  | .obj kvs => .obj (sortKV (canonKV kvs))

def canonList : List Json → List Json
  | [] => []
  | x :: rest => canonJson x :: canonList rest

def canonKV : List (String × Json) → List (String × Json)
  | [] => []
  | (k, v) :: rest => (k, canonJson v) :: canonKV rest

end

/-- The two provenance properties excluded from the fingerprint. -/
def SEM_EXCLUDE : List String := ["ProductionPlace", "ProducerCountry"]

/-- `feature_hash` from `merge_geojson_lib.py`.  The source computes
`sha256(json.dumps({"geometry": geom, "properties": props}, sort_keys=True))`
where `props` drops `ProductionPlace` and `ProducerCountry`; since the digest
of a canonical serialization is determined by (and, up to negligible
collisions, determines) the canonical value, the fingerprint is modelled as
that canonical value.  `none` models the `AttributeError` Python raises when
the feature's `properties` entry is present but not a dict (`.items()` on a
non-dict), or when the feature itself is not a dict (`.get` on a non-dict). -/
def feature_hash (feature : Json) : Option Json :=
  match feature with
  | .obj kvs =>
    let geom := (objGet kvs "geometry").getD (.obj [])
    match (objGet kvs "properties").getD (.obj []) with
    | .obj pkvs =>
      some (canonJson (.obj [("geometry", geom),
        ("properties", .obj (pkvs.filter (fun kv => !SEM_EXCLUDE.contains kv.1)))]))
    | _ => none
  | _ => none

/-- Does `needle` occur in `hay` starting at index `i`? -/
def isSubAt (needle hay : List Char) (i : ℕ) : Bool :=
  needle.isPrefixOf (hay.drop i)

/-- Python `str.find`: lowest index at which `needle` occurs, `none` for the
sentinel `-1`.  Indices `0 .. hay.length` are candidates (so finding the empty
needle yields index 0, as in Python). -/
def strFind (hay needle : List Char) : Option ℕ :=
  (List.range (hay.length + 1)).find? (fun i => isSubAt needle hay i)

/-- Python `str.rfind`: highest index at which `needle` occurs. -/
def strRFind (hay needle : List Char) : Option ℕ :=
  (List.range (hay.length + 1)).reverse.find? (fun i => isSubAt needle hay i)

/-- Python slicing `text[a:b]` for non-negative bounds (ℕ subtraction clamps
exactly as Python clamps out-of-range slice bounds). -/
def pySlice (text : List Char) (a b : ℕ) : List Char :=
  (text.drop a).take (b - a)

/-- Python `needle in hay` substring test. -/
def occursSub (needle hay : List Char) : Bool :=
  (List.range (hay.length + 1)).any (fun i => isSubAt needle hay i)

/-- `pathlib.PurePath.stem`/`.suffix` splitting of a file NAME: split at the
last dot, but only when that dot is neither the first nor the last character
(`0 < i < len(name) - 1` in the pathlib source); otherwise the suffix is
empty. -/
def splitExtPy (name : List Char) : List Char × List Char :=
  match strRFind name ['.'] with
  | some i => if 0 < i ∧ i < name.length - 1 then (name.take i, name.drop i) else (name, [])
  | none => (name, [])

/-- The final path segment (after the last '/'), as `pathlib` takes the name
of a path. -/
def lastSegment (p : List Char) : List Char :=
  (p.reverse.takeWhile (fun c => c ≠ '/')).reverse

/-- `Path(p).stem`: file name of the path without its final suffix. -/
def pathStem (p : String) : String :=
  String.mk (splitExtPy (lastSegment p.data)).1

/-- Decimal digits of `n`, least significant first, with `fuel ≥ n` recursion
fuel (structural recursion so that concrete instances evaluate). -/
def decStrAux : ℕ → ℕ → List Char
  | 0, _ => []
  | fuel + 1, n => if n = 0 then [] else Char.ofNat (48 + n % 10) :: decStrAux fuel (n / 10)

/-- The decimal string Python's formatting produces for a natural number
(as in the f-strings building collision suffixes). -/
def decStr (n : ℕ) : List Char :=
  if n = 0 then ['0'] else (decStrAux n n).reverse

/-- The lowercase image of a string's characters, modelling `str.lower` on the
ASCII file names involved. -/
def toLowerS (s : List Char) : List Char := s.map Char.toLower

def GEOJSON_EXT : List Char := ".geojson".data

/-- `output_file if output_file.lower().endswith(".geojson") else
f"{output_file}.geojson"` from `merge_geojson`. -/
def ensureExt (out : List Char) : List Char :=
  if GEOJSON_EXT.isSuffixOf (toLowerS out) then out else out ++ GEOJSON_EXT

/-- The candidate file name `f"{stem}_{i}{suffix}"` of the collision loop. -/
def candName (stem suf : List Char) (i : ℕ) : List Char :=
  stem ++ '_' :: (decStr i ++ suf)

/-- The collision loop of `merge_geojson`: starting at index `i`, return the
first candidate not among the existing paths `taken`.  The Python loop runs
unboundedly; distinct indices give distinct names, so fuel exceeding the
number of existing paths is enough for the loop to exit, which the caller
supplies. -/
def findFree (taken : List (List Char)) (stem suf : List Char) : ℕ → ℕ → List Char
  | 0, i => candName stem suf i
  | fuel + 1, i =>
    if candName stem suf i ∈ taken then findFree taken stem suf fuel (i + 1)
    else candName stem suf i

/-- The directory part of a path: everything before its final segment (kept
unchanged by `Path.with_name`). -/
def dirPart (p : List Char) : List Char :=
  p.take (p.length - (lastSegment p).length)

/-- Lines 95-102 of `merge_geojson_lib.py`: append the `.geojson` suffix when
missing, then avoid collisions with the existing paths `taken` by appending
`_1`, `_2`, ... before the extension.  As in pathlib, `stem` and `suffix` are
taken from the final path segment (so a hidden-file name like `.geojson` has
an empty suffix and the numeric suffix lands at the end), and `with_name`
keeps the directory part. -/
def merge_output_name (taken : List (List Char)) (output_file : List Char) : List Char :=
  let out := ensureExt output_file
  if out ∈ taken then
    findFree taken (dirPart out ++ (splitExtPy (lastSegment out)).1)
      (splitExtPy (lastSegment out)).2 (taken.length + 1) 1
  else out

/-- The geometry `type` tags recognised by `to_features`. -/
def GEOM_TYPES : List String :=
  ["Point", "MultiPoint", "LineString", "MultiLineString", "Polygon", "MultiPolygon",
   "GeometryCollection"]

/-- `add_props` inside `to_features`: `f.setdefault("properties", {})`, then
assign `ProductionPlace` and `ProducerCountry` into the properties dict.
`none` models the `TypeError` raised when an existing `properties` value is
not a dict (including JSON `null`). -/
def add_props (f : Json) (file_name country : String) : Option Json :=
  match f with
  | .obj kvs =>
    let kvs1 := if (objGet kvs "properties").isSome then kvs
                else kvs ++ [("properties", .obj [])]
    match (objGet kvs1 "properties").getD (.obj []) with
    | .obj pkvs =>
      some (.obj (objSet kvs1 "properties"
        (.obj (objSet (objSet pkvs "ProductionPlace" (.str file_name))
          "ProducerCountry" (.str country)))))
    | _ => none
  | _ => none

/-- The synthetic Feature wrapping a bare geometry in `to_features`. -/
def wrapGeom (g : Json) (file_name country : String) : Json :=
  .obj [("type", .str "Feature"), ("geometry", g),
        ("properties", .obj [("ProductionPlace", .str file_name),
                             ("ProducerCountry", .str country)])]

/-- One member of a `FeatureCollection`'s `features` list in `to_features`:
`some (some feat)` when a feature is produced, `some none` when the member is
silently dropped, `none` when Python raises (non-dict member, bad
properties). -/
def fcMember (file_name country : String) (f : Json) : Option (Option Json) :=
  match f with
  | .obj fkvs =>
    if objGet fkvs "type" = some (.str "Feature") then
      (add_props (.obj fkvs) file_name country).map some
    else
      match objGet fkvs "type" with
      | some (.str s) =>
        if s ∈ GEOM_TYPES then some (some (wrapGeom (.obj fkvs) file_name country))
        else some none
      | _ => some none
  | _ => none

/-- `to_features` from `merge_geojson_lib.py`: normalise a parsed JSON object
into a list of Features.  `none` models an exception escaping to the per-file
handler in `merge_geojson` (e.g. iterating a non-list `features` value, a
non-dict member, or a non-dict `properties`); an empty string or empty dict in
the `features` slot iterates zero times in Python and so yields `[]`. -/
def to_features (obj : Json) (file_name country : String) : Option (List Json) :=
  match obj with
  | .obj kvs =>
    if objGet kvs "type" = some (.str "FeatureCollection") then
      match (objGet kvs "features").getD (.arr []) with
      | .arr fs => (fs.mapM (fcMember file_name country)).map (fun l => l.filterMap id)
      | .str s => if s = "" then some [] else none
      | .obj fkvs => if fkvs = [] then some [] else none
      | _ => none
    else if objGet kvs "type" = some (.str "Feature") then
      (add_props (.obj kvs) file_name country).map (fun f => [f])
    else
      match objGet kvs "type" with
      | some (.str s) =>
        if s ∈ GEOM_TYPES then some [wrapGeom (.obj kvs) file_name country] else some []
      | _ => some []
  | _ => none

/-- The dedup fold of `merge_geojson` (lines 79-82) over one file's features:
thread the `seen` fingerprint set and the accumulated feature list; a `none`
fingerprint models the exception aborting the rest of this file's loop while
keeping what was already appended. -/
def processFeats : List Json → List Json → List Json → List Json × List Json
  | seen, acc, [] => (seen, acc)
  | seen, acc, f :: rest =>
    match feature_hash f with
    | none => (seen, acc)
    | some h =>
      if h ∈ seen then processFeats seen acc rest
      else processFeats (h :: seen) (acc ++ [f]) rest

/-- The per-file loop of `merge_geojson` (lines 76-84): each parsed file is
normalised and folded through the deduplicator; a file whose processing
raises contributes nothing further (its error is recorded). -/
def mergeFold (country : String) : List Json → List Json → List (String × Json) → List Json × List Json
  | seen, acc, [] => (seen, acc)
  | seen, acc, (p, data) :: rest =>
    match to_features data (pathStem p) country with
    | none => mergeFold country seen acc rest
    | some fs =>
      let sa := processFeats seen acc fs
      mergeFold country sa.1 sa.2 rest

/-- The deduplicated feature list `merge_geojson` collects from the parsed
files (in discovery order). -/
def merge_features (country : String) (files : List (String × Json)) : List Json :=
  (mergeFold country [] [] files).2

/-- All features the input files normalise to, before deduplication. -/
def allMergedFeatures (country : String) (files : List (String × Json)) : List Json :=
  files.flatMap (fun pf => (to_features pf.2 (pathStem pf.1) country).getD [])

/-- The fingerprints of all input features. -/
def allFingerprints (country : String) (files : List (String × Json)) : List Json :=
  (allMergedFeatures country files).filterMap feature_hash

/-- `COLUMN_ALIASES` from `csv_to_geojson_lib.py`. -/
def COLUMN_ALIASES : List (String × List String) :=
  [("polygon_id", ["Polygon #", "Polygon", "Plot ID", "ShapeID"]),
   ("longitude", ["Longitude", "Lon", "LONG", "X"]),
   ("latitude", ["Latitude", "Lat", "LAT", "Y"]),
   ("producer", ["Log Supplier", "Supplier", "ProducerName"]),
   ("forest", ["Forest Name", "Forest", "ProductionPlace"]),
   ("date_start", ["Harvest Start Date", "Start Date"]),
   ("date_end", ["Latest supplied Harvest Date", "End Date"]),
   ("percent_supply", ["% of Supply", "Percent Supply"]),
   ("under_4ha", ["Under 4Ha?", "Under4Ha"])]

/-- `resolve_columns` from `csv_to_geojson_lib.py`:
`next((c for c in options if c in df.columns), None)` — for each canonical
field, the first ALIAS (in alias-list order) present among the headers. -/
def resolve_columns (headers : List String) : List (String × Option String) :=
  COLUMN_ALIASES.map (fun ca => (ca.1, ca.2.find? (fun c => headers.contains c)))

/-- Following the claim's wording, for comparison with `resolve_columns`:
scan the HEADER ROW left-to-right and take the first header that is an alias
of the field. -/
def resolve_columns_by_header (headers : List String) : List (String × Option String) :=
  COLUMN_ALIASES.map (fun ca => (ca.1, headers.find? (fun h => ca.2.contains h)))

/-- The valid coordinate pairs of a CSV group (lines 63-69 of
`csv_to_geojson_lib.py`): a row cell is `some q` when it is non-null and
parses as a float, `none` when it is null/NaN or fails `float(...)`; a pair is
kept only when both cells are valid. -/
def validCoords (rows : List (Option ℚ × Option ℚ)) : List (ℚ × ℚ) :=
  rows.filterMap (fun r =>
    match r with
    | (some x, some y) => some (x, y)
    | _ => none)

/-- The exterior ring shapely's `Polygon(coords).exterior.coords` reports:
the input sequence, closed by repeating the first vertex at the end unless it
is already closed. -/
def closeRing (coords : List (ℚ × ℚ)) : List (ℚ × ℚ) :=
  match coords with
  | [] => []
  | c :: _ => if coords.getLast? = some c then coords else coords ++ [c]

def pairJson (p : ℚ × ℚ) : Json := .arr [.num p.1, .num p.2]

/-- The GeoJSON `Point` geometry built for a group with fewer than 3 pairs. -/
def pointGeom (c : ℚ × ℚ) : Json :=
  .obj [("type", .str "Point"), ("coordinates", pairJson c)]

/-- The GeoJSON `Polygon` geometry built for a group with 3 or more pairs. -/
def polygonGeom (ring : List (ℚ × ℚ)) : Json :=
  .obj [("type", .str "Polygon"), ("coordinates", .arr [.arr (ring.map pairJson)])]

/-- shapely `Polygon(coords)`: GEOS requires the closed ring to have at least
4 points (closure is only appended when the first and last input vertices
differ), so a 3-point sequence that is already closed makes the constructor
raise; on success `exterior.coords` reports the closed ring. -/
def shapelyExteriorRing (coords : List (ℚ × ℚ)) : Except Unit (List (ℚ × ℚ)) :=
  match coords with
  | [] => .error ()
  | _ :: _ => if 4 ≤ (closeRing coords).length then .ok (closeRing coords) else .error ()

/-- The geometry-choice portion of `convert_csv_to_geojson` (lines 63-85) for
one CSV group: `.ok none` when the group is skipped (zero valid pairs);
`.error` models the GEOS exception escaping `Polygon(coords)` — the group
loop has no handler, so it aborts the whole conversion. -/
def group_geometry (rows : List (Option ℚ × Option ℚ)) : Except Unit (Option Json) :=
  let coords := validCoords rows
  if coords.isEmpty then .ok none
  else if 3 ≤ coords.length then
    match shapelyExteriorRing coords with
    | .error e => .error e
    | .ok ring => .ok (some (polygonGeom ring))
  else
    match coords.head? with
    | some c => .ok (some (pointGeom c))
    | none => .ok none

/-- UTF-8 decoding of a byte sequence with a per-error action `sub` — `[]`
models `errors='ignore'` (the undecodable unit is deleted), `[U+FFFD]` models
`errors='replace'` (lossy substitution).  Follows CPython's decoder: the
standard valid-sequence ranges (overlongs and surrogates rejected via the
second-byte bounds), and on error the maximal subpart — an invalid start
byte, or a valid start byte plus the in-range continuations read so far — is
consumed as one error unit, resuming at the offending byte.  The fuel (first
argument, instantiated with the byte count) only forces structural recursion;
every step consumes at least one byte. -/
def utf8DecodeAux (sub : List Char) : ℕ → List ℕ → List Char
  | 0, _ => []
  | _ + 1, [] => []
  | fuel + 1, b :: rest =>
    if b < 0x80 then Char.ofNat b :: utf8DecodeAux sub fuel rest
    else if 0xC2 ≤ b ∧ b ≤ 0xDF then
      match rest with
      | [] => sub
      | b2 :: rest2 =>
        if 0x80 ≤ b2 ∧ b2 ≤ 0xBF then
          Char.ofNat ((b - 0xC0) * 0x40 + (b2 - 0x80)) :: utf8DecodeAux sub fuel rest2
        else sub ++ utf8DecodeAux sub fuel rest
    else if 0xE0 ≤ b ∧ b ≤ 0xEF then
      match rest with
      | [] => sub
      | b2 :: rest2 =>
        if (if b = 0xE0 then 0xA0 else 0x80) ≤ b2 ∧ b2 ≤ (if b = 0xED then 0x9F else 0xBF) then
          match rest2 with
          | [] => sub
          | b3 :: rest3 =>
            if 0x80 ≤ b3 ∧ b3 ≤ 0xBF then
              Char.ofNat ((b - 0xE0) * 0x1000 + (b2 - 0x80) * 0x40 + (b3 - 0x80))
                :: utf8DecodeAux sub fuel rest3
            else sub ++ utf8DecodeAux sub fuel rest2
        else sub ++ utf8DecodeAux sub fuel rest
    else if 0xF0 ≤ b ∧ b ≤ 0xF4 then
      match rest with
      | [] => sub
      | b2 :: rest2 =>
        if (if b = 0xF0 then 0x90 else 0x80) ≤ b2 ∧ b2 ≤ (if b = 0xF4 then 0x8F else 0xBF) then
          match rest2 with
          | [] => sub
          | b3 :: rest3 =>
            if 0x80 ≤ b3 ∧ b3 ≤ 0xBF then
              match rest3 with
              | [] => sub
              | b4 :: rest4 =>
                if 0x80 ≤ b4 ∧ b4 ≤ 0xBF then
                  Char.ofNat ((b - 0xF0) * 0x40000 + (b2 - 0x80) * 0x1000
                      + (b3 - 0x80) * 0x40 + (b4 - 0x80))
                    :: utf8DecodeAux sub fuel rest4
                else sub ++ utf8DecodeAux sub fuel rest3
            else sub ++ utf8DecodeAux sub fuel rest2
        else sub ++ utf8DecodeAux sub fuel rest
    else sub ++ utf8DecodeAux sub fuel rest

/-- `bytes.decode('utf-8', errors='ignore')` as used by `clean_json_from_bin`
(line 30 of `extract_embedded_lib.py`): undecodable units are DELETED. -/
def utf8DecodeIgnore (bs : List ℕ) : List Char :=
  utf8DecodeAux [] bs.length bs

/-- Following the claim's wording, for comparison: UTF-8 decoding with lossy
SUBSTITUTION of undecodable units (`errors='replace'`, one U+FFFD each). -/
def utf8DecodeReplace (bs : List ℕ) : List Char :=
  utf8DecodeAux ['\uFFFD'] bs.length bs

/-- The bytes of an ASCII text. -/
def toBytes (s : String) : List ℕ := s.data.map Char.toNat

def OPEN_MARKER : List Char := "\x7b\"type\":".data

def END_MARKER : List Char := "\"type\":\"Polygon\"\x7d\x7d]\x7d".data

def TYPE_KEY : List Char := "\"type\"".data

/-- `clean_json_from_bin` from `extract_embedded_lib.py`, applied to the
text obtained by decoding the binary payload (`errors='ignore'` drops
undecodable bytes before this function's logic runs).  Heuristic (i): slice
from the first occurrence of the opening marker to the last occurrence of the
Polygon closing marker, inclusive.  Heuristic (ii): the outermost brace pair,
accepted only when the text strictly between the braces contains a quoted
`type` key.  Otherwise `none`. -/
def clean_json_from_bin (text : List Char) : Option (List Char) :=
  match strFind text OPEN_MARKER, strRFind text END_MARKER with
  | some s, some e => some (pySlice text s (e + END_MARKER.length))
  | _, _ =>
    match strFind text ['\x7b'], strRFind text ['\x7d'] with
    | some f, some l =>
      if f < l ∧ occursSub TYPE_KEY (pySlice text f l) = true then
        some (pySlice text f (l + 1))
      else none
    | _, _ => none

/-- The numeric test of `compute_bbox`'s coordinate-pair check:
`isinstance(c, (int, float))` — Python booleans pass this test (they are
ints), with `True == 1` and `False == 0`. -/
def numVal : Json → Option ℚ
  | .num q => some q
  | .bool b => some (if b then 1 else 0)
  | _ => none

/-- A list is a coordinate pair when it has at least two elements and the
first two are numeric (`len(coords) >= 2 and all(isinstance(c, (int, float))
for c in coords[:2])`). -/
def pairHead (xs : List Json) : Option (ℚ × ℚ) :=
  match xs with
  | a :: b :: _ =>
    match numVal a, numVal b with
    | some x, some y => some (x, y)
    | _, _ => none
  | _ => none

/-- The running envelope of `compute_bbox` (`acc = [None, None, None, None]`
in the source: min-x, min-y, max-x, max-y). -/
structure BAcc where
  x0 : Option ℚ
  y0 : Option ℚ
  x1 : Option ℚ
  y1 : Option ℚ
deriving DecidableEq

def optMin (o : Option ℚ) (x : ℚ) : Option ℚ :=
  some (match o with | none => x | some v => min v x)

def optMax (o : Option ℚ) (x : ℚ) : Option ℚ :=
  some (match o with | none => x | some v => max v x)

/-- One coordinate pair folded into the envelope (the four assignments in
`walk_coords`). -/
def accAdd (acc : BAcc) (p : ℚ × ℚ) : BAcc :=
  ⟨optMin acc.x0 p.1, optMin acc.y0 p.2, optMax acc.x1 p.1, optMax acc.y1 p.2⟩

mutual

/-- `walk_coords` from `compute_bbox`: a list whose first two elements are
numeric is a coordinate pair and updates the envelope; any other list is
recursed into; non-lists are ignored. -/
def walk_coords : Json → BAcc → BAcc
  | .arr xs, acc =>
    match pairHead xs with
    | some p => accAdd acc p
    | none => walkList xs acc
  | _, acc => acc

def walkList : List Json → BAcc → BAcc
  | [], acc => acc
  | x :: rest, acc => walkList rest (walk_coords x acc)

end

mutual

/-- Following the spec's description of the envelope: the coordinate pairs
reachable from a coordinate structure — a sequence whose first two elements
are numeric is a pair, and recursion continues only into sequences that are
not themselves pairs. -/
def coordPairs : Json → List (ℚ × ℚ)
  | .arr xs =>
    match pairHead xs with
    | some p => [p]
    | none => coordPairsList xs
  | _ => []

def coordPairsList : List Json → List (ℚ × ℚ)
  | [] => []
  | x :: rest => coordPairs x ++ coordPairsList rest

end

/-- The `GeometryCollection` member loop of `compute_bbox` (lines 56-58):
walk each member's `coordinates`; `.error` models the `AttributeError` on a
non-dict member. -/
def gcWalk : List Json → BAcc → Except Unit BAcc
  | [], acc => .ok acc
  | g :: rest, acc =>
    match g with
    | .obj gk => gcWalk rest (walk_coords ((objGet gk "coordinates").getD .null) acc)
    | _ => .error ()

/-- One feature folded into the envelope (the body of `compute_bbox`'s
feature loop, lines 51-60).  A falsy geometry is skipped; a truthy non-dict
geometry raises (`.get` on a non-dict); a `GeometryCollection` without
`coordinates` walks its members' `coordinates`; otherwise the geometry's
`coordinates` value is walked (`walk_coords(None)` is a no-op, matching a
missing or null `coordinates`). -/
def featureWalk (f : Json) (acc : BAcc) : Except Unit BAcc :=
  match f with
  | .obj fkvs =>
    let geom := (objGet fkvs "geometry").getD .null
    if falsy geom then .ok acc
    else
      match geom with
      | .obj gkvs =>
        let coords := (objGet gkvs "coordinates").getD .null
        if coords = .null ∧ objGet gkvs "type" = some (.str "GeometryCollection") then
          match (objGet gkvs "geometries").getD (.arr []) with
          | .arr gs => gcWalk gs acc
          | .str s => if s = "" then .ok acc else .error ()
          | .obj kv2 => if kv2 = [] then .ok acc else .error ()
          | _ => .error ()
        else .ok (walk_coords coords acc)
      | _ => .error ()
  | _ => .error ()

def bboxFold : List Json → BAcc → Except Unit BAcc
  | [], acc => .ok acc
  | f :: rest, acc =>
    match featureWalk f acc with
    | .error e => .error e
    | .ok acc' => bboxFold rest acc'

/-- `return acc if None not in acc else None` at the end of `compute_bbox`. -/
def accResult (acc : BAcc) : Option (ℚ × ℚ × ℚ × ℚ) :=
  match acc.x0, acc.y0, acc.x1, acc.y1 with
  | some a, some b, some c, some d => some (a, b, c, d)
  | _, _, _, _ => none

/-- `compute_bbox` from `merge_geojson_lib.py`; `.error` models an exception
escaping `compute_bbox` (it is called outside any handler in
`merge_geojson`). -/
def compute_bbox (features : List Json) : Except Unit (Option (ℚ × ℚ × ℚ × ℚ)) :=
  (bboxFold features ⟨none, none, none, none⟩).map accResult

/-- Spec-side pairs for the `GeometryCollection` member loop. -/
def gcPairs : List Json → List (ℚ × ℚ)
  | [] => []
  | .obj gk :: rest => coordPairs ((objGet gk "coordinates").getD .null) ++ gcPairs rest
  | _ :: _ => []

/-- Following the spec: the coordinate pairs reachable from one feature's
geometry, including the members of a `GeometryCollection`. -/
def featurePairs (f : Json) : List (ℚ × ℚ) :=
  match f with
  | .obj fkvs =>
    let geom := (objGet fkvs "geometry").getD .null
    if falsy geom then []
    else
      match geom with
      | .obj gkvs =>
        let coords := (objGet gkvs "coordinates").getD .null
        if coords = .null ∧ objGet gkvs "type" = some (.str "GeometryCollection") then
          match (objGet gkvs "geometries").getD (.arr []) with
          | .arr gs => gcPairs gs
          | _ => []
        else coordPairs coords
      | _ => []
  | _ => []

/-- Following the spec: all coordinate pairs reachable from every kept
feature's geometry. -/
def reachablePairs (features : List Json) : List (ℚ × ℚ) :=
  features.flatMap featurePairs

/-- Lines 89-93 of `merge_geojson_lib.py`: the merged FeatureCollection
object, with the `bbox` key appended only when requested and truthy. -/
def mergedCollection (features : List Json) (add_bbox : Bool) : Except Unit Json :=
  let base := [("type", Json.str "FeatureCollection"), ("features", Json.arr features)]
  if add_bbox then
    match compute_bbox features with
    | .error e => .error e
    | .ok none => .ok (.obj base)
    | .ok (some (a, b, c, d)) =>
      .ok (.obj (base ++ [("bbox", Json.arr [.num a, .num b, .num c, .num d])]))
  else .ok (.obj base)

/-- Top-level key lookup on a JSON object. -/
def jsonGet (j : Json) (key : String) : Option Json :=
  match j with
  | .obj kvs => objGet kvs key
  | _ => none

/-- A directory or file path as a list of segments. -/
abbrev DirPath := List String

/-- The directories and files existing on disk, for the effects of
`extract_embedded` (only the entries the model creates or removes are
tracked). -/
structure FS where
  dirs : List DirPath
  files : List DirPath
deriving DecidableEq

/-- All nonempty prefixes of a path (the ancestors `mkdir(parents=True)`
creates together with the directory itself). -/
def pathPrefixes (p : DirPath) : List DirPath :=
  (List.range p.length).map (fun k => p.take (k + 1))

/-- `Path.mkdir(parents=True, exist_ok=True)`. -/
def mkdirp (fs : FS) (p : DirPath) : FS :=
  { fs with dirs := fs.dirs ++ (pathPrefixes p).filter (fun d => d ∉ fs.dirs) }

/-- `shutil.rmtree(p, onerror=remove_readonly)`: remove the subtree rooted at
`p`.  `remove_readonly` resets permissions and swallows failures, so the
removal is modelled as succeeding. -/
def rmtree (fs : FS) (p : DirPath) : FS :=
  { dirs := fs.dirs.filter (fun d => !(p.isPrefixOf d)),
    files := fs.files.filter (fun d => !(p.isPrefixOf d)) }

/-- The suffixing loop of `unique_dir` from `extract_embedded_lib.py`. -/
def uniqueDirGo (fs : FS) (parent : DirPath) (name : String) : ℕ → ℕ → DirPath
  | 0, idx => parent ++ [name ++ "_" ++ String.mk (decStr idx)]
  | fuel + 1, idx =>
    let c := parent ++ [name ++ "_" ++ String.mk (decStr idx)]
    if c ∈ fs.dirs then uniqueDirGo fs parent name fuel (idx + 1) else c

/-- `unique_dir` from `extract_embedded_lib.py`: the base path if unused,
otherwise the first `name_1`, `name_2`, ... sibling that is unused. -/
def unique_dir (fs : FS) (base : DirPath) : DirPath :=
  if base ∈ fs.dirs then
    uniqueDirGo fs base.dropLast (base.getLast?.getD "") (fs.dirs.length + 1) 1
  else base

/-- The collision loop for a recovered `.geojson` output file (lines 94-98 of
`extract_embedded_lib.py`). -/
def outFileGo (fs : FS) (dir : DirPath) (stem : String) : ℕ → ℕ → DirPath
  | 0, i => dir ++ [stem ++ "_" ++ String.mk (decStr i) ++ ".geojson"]
  | fuel + 1, i =>
    let c := dir ++ [stem ++ "_" ++ String.mk (decStr i) ++ ".geojson"]
    if c ∈ fs.files then outFileGo fs dir stem fuel (i + 1) else c

def outFileName (fs : FS) (dir : DirPath) (stem : String) : DirPath :=
  let base := dir ++ [stem ++ ".geojson"]
  if base ∈ fs.files then outFileGo fs dir stem (fs.files.length + 1) 1 else base

/-- A `.bin` payload found inside an unpacked container: whether
`safe_extract_zip` succeeds on it, and the text its bytes decode to
(`errors='ignore'`). -/
structure BinFile where
  name : String
  zipOk : Bool
  text : List Char
deriving DecidableEq

/-- A container file (`*.xlsx` or `*.zip` directly under the source folder):
its stem, its kind, whether it opens as a zip, the success of each nested-zip
extraction attempt, and the `.bin` files its unpacked tree contains. -/
structure Container where
  name : String
  isXlsx : Bool
  unzipOk : Bool
  nested : List Bool
  bins : List BinFile
deriving DecidableEq

/-- The summary dict `extract_embedded` returns (keys as in the source). -/
structure ExtractSummary where
  xlsx : ℕ
  zip : ℕ
  nested_zips : ℕ
  bin_processed : ℕ
  zip_bins_extracted : ℕ
  json_cleaned : ℕ
  errors : ℕ
  outputs_root : DirPath
  outputs : List (String × DirPath)
deriving DecidableEq

/-- The running state of the container loop in `extract_embedded`. -/
structure ExtState where
  n_xlsx : ℕ
  n_zip : ℕ
  n_nested : ℕ
  n_bin : ℕ
  n_zipbin : ℕ
  n_clean : ℕ
  n_err : ℕ
  fs : FS
  outputs : List (String × DirPath)

/-- The body of the `.bin` loop (lines 87-103 of `extract_embedded_lib.py`).
An empty recovered string is falsy in Python (`if cleaned:`), so it counts as
an error exactly like `None`. -/
def processBin (cname : String) (final_dir : DirPath) (st : ExtState) (b : BinFile) : ExtState :=
  let st := { st with n_bin := st.n_bin + 1 }
  if b.zipOk then { st with n_zipbin := st.n_zipbin + 1 }
  else
    match clean_json_from_bin b.text with
    | some cleaned =>
      if cleaned.isEmpty then { st with n_err := st.n_err + 1 }
      else
        let out := outFileName st.fs final_dir (String.mk (splitExtPy b.name.data).1)
        { st with
            n_clean := st.n_clean + 1,
            fs := { st.fs with files := st.fs.files ++ [out] },
            outputs := st.outputs ++ [(cname, out)] }
    | none => { st with n_err := st.n_err + 1 }

/-- One iteration of the container loop (lines 68-105 of
`extract_embedded_lib.py`).  A container that fails to unzip records an error
and `continue`s — skipping the per-container `rmtree`; nested-zip extraction
targets live inside `temp_dir` and are subsumed by its removal. -/
def processContainer (OUT : DirPath) (st : ExtState) (c : Container) : ExtState :=
  let temp_dir := OUT ++ ["temp", c.name]
  let st := { st with fs := mkdirp st.fs temp_dir }
  let fdir := unique_dir st.fs (OUT ++ [c.name])
  let st := { st with fs := mkdirp st.fs fdir }
  if !c.unzipOk then { st with n_err := st.n_err + 1 }
  else
    let st := if c.isXlsx then { st with n_xlsx := st.n_xlsx + 1 }
              else { st with n_zip := st.n_zip + 1 }
    let st := { st with n_nested := st.n_nested + c.nested.count true }
    let kept := c.bins.filter (fun b => !(String.isPrefixOf "printerSettings" b.name))
    let st := kept.foldl (processBin c.name fdir) st
    { st with fs := rmtree st.fs temp_dir }

/-- The all-zero summary returned when no container files are found. -/
def zeroSummary (OUT : DirPath) : ExtractSummary :=
  ⟨0, 0, 0, 0, 0, 0, 0, OUT, []⟩

/-- `extract_embedded` from `extract_embedded_lib.py`, over the discovered
container files (an invalid or missing source folder simply discovers zero
containers: `Path.glob` on a missing directory yields nothing).  Note the
early return for zero containers happens AFTER the temp root is created and
performs no cleanup. -/
def extract_embedded (containers : List Container) (OUT : DirPath) (fs0 : FS) :
    ExtractSummary × FS :=
  let fs1 := mkdirp (mkdirp fs0 OUT) (OUT ++ ["temp"])
  if containers.isEmpty then (zeroSummary OUT, fs1)
  else
    let st0 : ExtState := ⟨0, 0, 0, 0, 0, 0, 0, fs1, []⟩
    let st := containers.foldl (processContainer OUT) st0
    let fs2 := rmtree st.fs (OUT ++ ["temp"])
    (⟨st.n_xlsx, st.n_zip, st.n_nested, st.n_bin, st.n_zipbin, st.n_clean, st.n_err,
      OUT, st.outputs⟩, fs2)

/-- The scenario input `a.geojson` — a bare `Point` geometry. -/
def scenarioPoint : Json :=
  .obj [("type", .str "Point"), ("coordinates", .arr [.num 1, .num 2])]

/-- The scenario input `b.geojson` — a `FeatureCollection` holding one
`Feature` with the same `Point` geometry and empty properties. -/
def scenarioFC : Json :=
  .obj [("type", .str "FeatureCollection"),
        ("features", .arr [.obj [("type", .str "Feature"), ("geometry", scenarioPoint),
                                 ("properties", .obj [])]])]

/-- The two-file scenario folder of the spec. -/
def scenarioFiles : List (String × Json) :=
  [("a.geojson", scenarioPoint), ("b.geojson", scenarioFC)]

/-- A feature whose geometry is a `GeometryCollection` of two points, for
exercising the bounding-box walk. -/
def bboxFeature : Json :=
  .obj [("type", .str "Feature"),
        ("geometry", .obj [("type", .str "GeometryCollection"),
          ("geometries", .arr
            [.obj [("type", .str "Point"), ("coordinates", .arr [.num 1, .num 2])],
             .obj [("type", .str "Point"), ("coordinates", .arr [.num 3, .num 4])]])]),
        ("properties", .obj [])]

/-- A binary payload: garbage, then a marker-delimited GeoJSON text, then
garbage. -/
def binText1 : List Char := "AB".data ++ OPEN_MARKER ++ "P".data ++ END_MARKER ++ "Z".data

/-- A binary payload with no Polygon markers but an outermost brace pair
containing a quoted type key. -/
def binText2 : List Char := "<\x7bx\"type\"y\x7d>".data

/-- A binary payload whose opening marker is split by one undecodable byte:
deleting the byte (as the source does) re-forms the marker, substituting it
(as the claim says) does not. -/
def cexBytes : List ℕ :=
  toBytes "A\x7b\"ty" ++ [0xFF] ++ toBytes "pe\":1,"
    ++ toBytes "\"type\":\"Polygon\"\x7d\x7d]\x7d" ++ toBytes "Z"

/-- A container whose archive fails to open. -/
def failContainer : Container := ⟨"c1", true, false, [], []⟩

theorem lexLe_total : ∀ a b, lexLe a b = true ∨ lexLe b a = true := by
  intro a
  induction a with
  | nil => intro b; left; rfl
  | cons x xs ih =>
    intro b
    cases b with
    | nil => right; rfl
    | cons y ys =>
      by_cases h1 : x.toNat < y.toNat
      · left; simp [lexLe, h1]
      · by_cases h2 : x.toNat = y.toNat
        · rcases ih ys with h | h
          · left; simp [lexLe, h1, h2, h]
          · right
            have hyx : ¬ y.toNat < x.toNat := by omega
            simp [lexLe, hyx, h2.symm, h]
        · right
          have hyx : y.toNat < x.toNat := by omega
          simp [lexLe, hyx]

theorem charToNat_inj {a b : Char} (h : a.toNat = b.toNat) : a = b :=
  Char.ext (UInt32.ext h)

theorem lexLe_cons_iff {x y : Char} {xs ys : List Char} :
    lexLe (x :: xs) (y :: ys) = true ↔
      x.toNat < y.toNat ∨ (x.toNat = y.toNat ∧ lexLe xs ys = true) := by
  simp only [lexLe]
  by_cases h1 : x.toNat < y.toNat
  · simp [h1]
  · by_cases h2 : x.toNat = y.toNat
    · simp [h1, h2]
    · simp [h1, h2]

theorem lexLe_trans : ∀ a b c, lexLe a b = true → lexLe b c = true → lexLe a c = true := by
  intro a
  induction a with
  | nil => intro b c _ _; rfl
  | cons x xs ih =>
    intro b c hab hbc
    cases b with
    | nil => simp [lexLe] at hab
    | cons y ys =>
      cases c with
      | nil => simp [lexLe] at hbc
      | cons z zs =>
        rw [lexLe_cons_iff] at hab hbc ⊢
        rcases hab with h1 | ⟨h1, hab'⟩ <;> rcases hbc with h2 | ⟨h2, hbc'⟩
        · exact Or.inl (Nat.lt_trans h1 h2)
        · exact Or.inl (h2 ▸ h1)
        · exact Or.inl (h1 ▸ h2)
        · exact Or.inr ⟨h1.trans h2, ih ys zs hab' hbc'⟩

theorem lexLe_antisymm : ∀ a b, lexLe a b = true → lexLe b a = true → a = b := by
  intro a
  induction a with
  | nil =>
    intro b _ hba
    cases b with
    | nil => rfl
    | cons y ys => simp [lexLe] at hba
  | cons x xs ih =>
    intro b hab hba
    cases b with
    | nil => simp [lexLe] at hab
    | cons y ys =>
      rw [lexLe_cons_iff] at hab hba
      rcases hab with h1 | ⟨h1, hab'⟩ <;> rcases hba with h2 | ⟨h2, hba'⟩
      · omega
      · omega
      · omega
      · rw [charToNat_inj h1, ih ys hab' hba']

instance : IsTotal (String × Json) kvLe :=
  ⟨fun a b => lexLe_total a.1.data b.1.data⟩

instance : IsTrans (String × Json) kvLe :=
  ⟨fun a b c => lexLe_trans a.1.data b.1.data c.1.data⟩

theorem stringData_inj {s t : String} (h : s.data = t.data) : s = t := by
  cases s; cases t; exact congrArg String.mk h

/-- The strict key order: at most one list per key multiset is sorted. -/
def kvLt (a b : String × Json) : Prop := kvLe a b ∧ a.1 ≠ b.1

instance : IsAntisymm (String × Json) kvLt :=
  ⟨fun a b hab hba => absurd (stringData_inj (lexLe_antisymm _ _ hab.1 hba.1)) hab.2⟩

theorem sortKV_perm (l : List (String × Json)) : (sortKV l).Perm l :=
  List.perm_insertionSort kvLe l

theorem sortKV_sorted (l : List (String × Json)) : List.Sorted kvLe (sortKV l) :=
  List.sorted_insertionSort kvLe l

theorem sorted_kvLt {l : List (String × Json)} (hs : List.Sorted kvLe l)
    (hn : (l.map Prod.fst).Nodup) : List.Sorted kvLt l := by
  have hne : l.Pairwise (fun a b => a.1 ≠ b.1) := List.pairwise_map.mp hn
  exact hs.and hne

/-- Two permuted entry lists with distinct keys sort to the same list. -/
theorem sortKV_perm_eq {l1 l2 : List (String × Json)} (hp : l1.Perm l2)
    (hn : (l2.map Prod.fst).Nodup) : sortKV l1 = sortKV l2 := by
  have hn1 : (l1.map Prod.fst).Nodup := ((hp.map Prod.fst).nodup_iff).mpr hn
  have hperm : (sortKV l1).Perm (sortKV l2) :=
    (sortKV_perm l1).trans (hp.trans (sortKV_perm l2).symm)
  have hk1 : ((sortKV l1).map Prod.fst).Nodup :=
    (((sortKV_perm l1).map Prod.fst).nodup_iff).mpr hn1
  have hk2 : ((sortKV l2).map Prod.fst).Nodup :=
    (((sortKV_perm l2).map Prod.fst).nodup_iff).mpr hn
  exact List.eq_of_perm_of_sorted hperm
    (sorted_kvLt (sortKV_sorted l1) hk1) (sorted_kvLt (sortKV_sorted l2) hk2)

theorem canonKV_eq_map (kvs : List (String × Json)) :
    canonKV kvs = kvs.map (fun kv => (kv.1, canonJson kv.2)) := by
  induction kvs with
  | nil => rfl
  | cons kv rest ih => cases kv; simp [canonKV, ih]

/-- Canonicalisation is invariant under permuting an object's entries, as
long as the keys are distinct (as they always are for parsed JSON). -/
theorem canon_obj_perm {kvs kvs' : List (String × Json)} (hp : kvs.Perm kvs')
    (hn : (kvs'.map Prod.fst).Nodup) : canonJson (.obj kvs) = canonJson (.obj kvs') := by
  simp only [canonJson, canonKV_eq_map]
  congr 1
  apply sortKV_perm_eq (hp.map _)
  simpa [List.map_map, Function.comp] using hn

/-- Equality of JSON values up to reordering the entries of a top-level
object (with the distinct keys every parsed JSON object has). -/
def objPermEq (a b : Json) : Prop :=
  a = b ∨ ∃ kvs kvs', a = .obj kvs ∧ b = .obj kvs' ∧ kvs.Perm kvs' ∧ (kvs'.map Prod.fst).Nodup

theorem canon_objPermEq {a b : Json} (h : objPermEq a b) : canonJson a = canonJson b := by
  rcases h with rfl | ⟨kvs, kvs', rfl, rfl, hp, hn⟩
  · rfl
  · exact canon_obj_perm hp hn

theorem feature_hash_obj (fkvs pkvs : List (String × Json))
    (hp : (objGet fkvs "properties").getD (.obj []) = .obj pkvs) :
    feature_hash (.obj fkvs) = some (canonJson (.obj
      [("geometry", (objGet fkvs "geometry").getD (.obj [])),
       ("properties", .obj (pkvs.filter (fun kv => !SEM_EXCLUDE.contains kv.1)))])) := by
  simp only [feature_hash, hp]

/-- C2: the fingerprint is invariant under reordering the feature's property
(and geometry) object keys, and under changing only the `ProductionPlace` or
`ProducerCountry` properties: two features whose geometries agree up to key
order and whose properties minus those two keys agree up to key order get the
same fingerprint. -/
theorem feature_hash_key_order_invariant
    (fkvs fkvs' pkvs pkvs' : List (String × Json))
    (hg : objPermEq ((objGet fkvs "geometry").getD (.obj []))
                    ((objGet fkvs' "geometry").getD (.obj [])))
    (hp : (objGet fkvs "properties").getD (.obj []) = .obj pkvs)
    (hp' : (objGet fkvs' "properties").getD (.obj []) = .obj pkvs')
    (hpp : (pkvs.filter (fun kv => !SEM_EXCLUDE.contains kv.1)).Perm
           (pkvs'.filter (fun kv => !SEM_EXCLUDE.contains kv.1)))
    (hpn : ((pkvs'.filter (fun kv => !SEM_EXCLUDE.contains kv.1)).map Prod.fst).Nodup) :
    feature_hash (.obj fkvs) = feature_hash (.obj fkvs') := by
  rw [feature_hash_obj fkvs pkvs hp, feature_hash_obj fkvs' pkvs' hp']
  have hfilters : canonJson (.obj (pkvs.filter (fun kv => !SEM_EXCLUDE.contains kv.1)))
      = canonJson (.obj (pkvs'.filter (fun kv => !SEM_EXCLUDE.contains kv.1))) :=
    canon_obj_perm hpp hpn
  have hgeo := canon_objPermEq hg
  simp only [canonJson, canonKV, canonList]
  simp only [canonJson] at hfilters hgeo
  rw [hfilters, hgeo]

/-- Witness for C2: two concrete features — reordered geometry and property
keys, different source files (hence different `ProductionPlace`), different
`ProducerCountry` — fingerprint identically. -/
theorem feature_hash_key_order_invariant_witness :
    feature_hash (.obj [("type", .str "Feature"),
      ("geometry", .obj [("type", .str "Point"), ("coordinates", .arr [.num 1, .num 2])]),
      ("properties", .obj [("a", .num 7), ("b", .str "x"),
                           ("ProductionPlace", .str "a"), ("ProducerCountry", .str "NZ")])])
    = feature_hash (.obj [("type", .str "Feature"),
      ("geometry", .obj [("coordinates", .arr [.num 1, .num 2]), ("type", .str "Point")]),
      ("properties", .obj [("ProductionPlace", .str "b"), ("ProducerCountry", .str "DE"),
                           ("b", .str "x"), ("a", .num 7)])]) := by
  apply feature_hash_key_order_invariant _ _
    [("a", .num 7), ("b", .str "x"),
     ("ProductionPlace", .str "a"), ("ProducerCountry", .str "NZ")]
    [("ProductionPlace", .str "b"), ("ProducerCountry", .str "DE"),
     ("b", .str "x"), ("a", .num 7)]
  · right
    refine ⟨[("type", .str "Point"), ("coordinates", .arr [.num 1, .num 2])],
            [("coordinates", .arr [.num 1, .num 2]), ("type", .str "Point")],
            by decide, by decide, ?_, by decide⟩
    decide
  · decide
  · decide
  · decide
  · decide

theorem objGet_append (kvs : List (String × Json)) (k : String) (v : Json) (key : String) :
    objGet (kvs ++ [(k, v)]) key =
      match objGet kvs key with
      | some w => some w
      | none => if k = key then some v else none := by
  induction kvs with
  | nil => simp [objGet]
  | cons kv rest ih =>
    by_cases h : kv.1 = key
    · simp [objGet, h]
    · simpa [objGet, h] using ih

/-- Does the feature's `properties` entry, when present, hold an object (the
domain on which `feature_hash` does not raise)? -/
def propsObjOk (kvs : List (String × Json)) : Bool :=
  match objGet kvs "properties" with
  | none => true
  | some (.obj _) => true
  | some _ => false

/-- C10 counterexample: `feature_hash` is NOT total over arbitrary feature
objects — on a feature whose `properties` is JSON `null` (legal for a GeoJSON
Feature) the source raises `AttributeError` (`None.items()`), modelled as
`none`. -/
theorem feature_hash_not_total :
    feature_hash (.obj [("properties", Json.null)]) = none := by
  decide

/-- C10 (amended): on features whose `properties`, when present, is an
object, `feature_hash` is defined, and a missing `geometry` key (likewise a
missing `properties` key) fingerprints exactly like an explicit empty object
in that slot — so merge deduplicates a Feature lacking a geometry key against
one carrying `"geometry": {}`. -/
theorem feature_hash_defaults (fkvs : List (String × Json))
    (hp : propsObjOk fkvs = true) :
    (feature_hash (.obj fkvs)).isSome = true
    ∧ (objGet fkvs "geometry" = none →
        feature_hash (.obj fkvs) = feature_hash (.obj (fkvs ++ [("geometry", .obj [])])))
    ∧ (objGet fkvs "properties" = none →
        feature_hash (.obj fkvs) = feature_hash (.obj (fkvs ++ [("properties", .obj [])]))) := by
  have hpk : ∃ pkvs, (objGet fkvs "properties").getD (.obj []) = .obj pkvs := by
    unfold propsObjOk at hp
    match hm : objGet fkvs "properties" with
    | none => exact ⟨[], by simp [hm]⟩
    | some (.obj pkvs) => exact ⟨pkvs, by simp [hm]⟩
    | some .null | some (.bool _) | some (.num _) | some (.str _) | some (.arr _) =>
      rw [hm] at hp; simp at hp
  rcases hpk with ⟨pkvs, hpk⟩
  refine ⟨by rw [feature_hash_obj fkvs pkvs hpk]; rfl, ?_, ?_⟩
  · intro hgeo
    have hp2 : (objGet (fkvs ++ [("geometry", .obj [])]) "properties").getD (.obj [])
        = .obj pkvs := by
      rw [objGet_append]
      match hm : objGet fkvs "properties" with
      | some w => rw [hm] at hpk; simpa using hpk
      | none => rw [hm] at hpk; simp at hpk ⊢; simpa using hpk.symm
    rw [feature_hash_obj fkvs pkvs hpk, feature_hash_obj _ pkvs hp2, objGet_append, hgeo]
    simp
  · intro hprops
    have hpk0 : pkvs = [] := by
      rw [hprops] at hpk
      simpa using hpk.symm
    subst hpk0
    have hp2 : (objGet (fkvs ++ [("properties", .obj [])]) "properties").getD (.obj [])
        = .obj [] := by
      rw [objGet_append, hprops]
      simp
    rw [feature_hash_obj fkvs [] hpk, feature_hash_obj _ [] hp2, objGet_append]
    match hm : objGet fkvs "geometry" with
    | some w => simp
    | none => simp

/-- Witness for C10 (amended): a Feature without a `geometry` key
fingerprints like the same Feature with `"geometry": {}`, and the merge fold
keeps only one of the two. -/
theorem feature_hash_defaults_witness :
    propsObjOk [("type", Json.str "Feature"), ("properties", .obj [("a", .num 1)])] = true
    ∧ feature_hash (.obj [("type", Json.str "Feature"), ("properties", .obj [("a", .num 1)])])
      = feature_hash (.obj ([("type", Json.str "Feature"), ("properties", .obj [("a", .num 1)])]
          ++ [("geometry", .obj [])]))
    ∧ (processFeats [] []
        [.obj [("type", Json.str "Feature"), ("properties", .obj [("a", .num 1)])],
         .obj [("type", Json.str "Feature"), ("properties", .obj [("a", .num 1)]),
               ("geometry", .obj [])]]).2.length = 1 :=
  ⟨by decide,
   (feature_hash_defaults _ (by decide)).2.1 (by decide),
   by decide⟩

theorem sdiff_insert_of_mem_json {h : Json} {R S : Finset Json}
    (hm : h ∈ S) : (insert h R) \ S = R \ S := by
  ext x
  simp only [Finset.mem_sdiff, Finset.mem_insert]
  constructor
  · rintro ⟨hx | hx, hns⟩
    · exact absurd (hx ▸ hm) hns
    · exact ⟨hx, hns⟩
  · rintro ⟨hx, hns⟩
    exact ⟨Or.inr hx, hns⟩

theorem card_sdiff_insert_of_not_mem_json {h : Json} {R S : Finset Json}
    (hm : h ∉ S) : ((insert h R) \ S).card = (R \ insert h S).card + 1 := by
  have e1 : (insert h R) \ S = insert h (R \ insert h S) := by
    ext x
    simp only [Finset.mem_sdiff, Finset.mem_insert]
    constructor
    · rintro ⟨hx | hx, hns⟩
      · exact Or.inl hx
      · by_cases hxh : x = h
        · exact Or.inl hxh
        · exact Or.inr ⟨hx, by simp [hxh, hns]⟩
    · rintro (rfl | ⟨hx, hni⟩)
      · exact ⟨Or.inl rfl, hm⟩
      · exact ⟨Or.inr hx, fun hcs => hni (Or.inr hcs)⟩
  rw [e1]
  exact Finset.card_insert_of_not_mem (by simp)

theorem card_union_sdiff_split (A B S : Finset Json) :
    ((A ∪ B) \ S).card = (A \ S).card + (B \ (S ∪ A)).card := by
  have e : (A ∪ B) \ S = (A \ S) ∪ (B \ (S ∪ A)) := by
    ext x
    simp only [Finset.mem_sdiff, Finset.mem_union]
    tauto
  rw [e]
  apply Finset.card_union_of_disjoint
  rw [Finset.disjoint_left]
  intro x hx hx2
  simp only [Finset.mem_sdiff, Finset.mem_union] at hx hx2
  tauto

/-- The dedup fold keeps exactly one feature per fingerprint not seen before,
and records exactly the fingerprints of the processed features. -/
theorem processFeats_spec (fs : List Json) : ∀ (seen acc : List Json),
    (∀ f ∈ fs, (feature_hash f).isSome = true) →
    ((processFeats seen acc fs).2.length
        = acc.length + ((fs.filterMap feature_hash).toFinset \ seen.toFinset).card
     ∧ ((processFeats seen acc fs).1).toFinset
        = seen.toFinset ∪ (fs.filterMap feature_hash).toFinset) := by
  induction fs with
  | nil =>
    intro seen acc _
    simp [processFeats]
  | cons f rest ih =>
    intro seen acc hwf
    have hf : (feature_hash f).isSome = true := hwf f (by simp)
    rcases Option.isSome_iff_exists.mp hf with ⟨h, hh⟩
    have hrest : ∀ g ∈ rest, (feature_hash g).isSome = true :=
      fun g hg => hwf g (by simp [hg])
    have hfm : (f :: rest).filterMap feature_hash = h :: rest.filterMap feature_hash := by
      rw [List.filterMap_cons, hh]
    by_cases hmem : h ∈ seen
    · have hstep : processFeats seen acc (f :: rest) = processFeats seen acc rest := by
        simp [processFeats, hh, hmem]
      rcases ih seen acc hrest with ⟨ihl, ihs⟩
      rw [hstep, hfm]
      constructor
      · rw [ihl, List.toFinset_cons,
          sdiff_insert_of_mem_json (by simpa using hmem)]
      · rw [ihs, List.toFinset_cons]
        have : h ∈ seen.toFinset ∪ (rest.filterMap feature_hash).toFinset := by
          simp [hmem]
        rw [Finset.union_insert, Finset.insert_eq_self.mpr this]
    · have hstep : processFeats seen acc (f :: rest)
          = processFeats (h :: seen) (acc ++ [f]) rest := by
        simp [processFeats, hh, hmem]
      rcases ih (h :: seen) (acc ++ [f]) hrest with ⟨ihl, ihs⟩
      rw [hstep, hfm]
      constructor
      · rw [ihl, List.toFinset_cons, List.toFinset_cons,
          card_sdiff_insert_of_not_mem_json (by simpa using hmem)]
        simp
        omega
      · rw [ihs, List.toFinset_cons, List.toFinset_cons, Finset.union_insert,
          Finset.insert_union]

theorem objGet_eq_none_of_not_any {kvs : List (String × Json)} {k : String}
    (h : ∀ kv ∈ kvs, kv.1 ≠ k) : objGet kvs k = none := by
  induction kvs with
  | nil => rfl
  | cons kv rest ih =>
    have h1 : ¬ kv.1 = k := h kv (by simp)
    simp only [objGet, if_neg h1]
    exact ih (fun kv2 hk2 => h kv2 (by simp [hk2]))

theorem objGet_overwrite (k : String) (v : Json) :
    ∀ kvs : List (String × Json), kvs.any (fun kv => kv.1 = k) = true →
    objGet (kvs.map (fun kv => if kv.1 = k then (k, v) else kv)) k = some v := by
  intro kvs
  induction kvs with
  | nil => intro hany; simp at hany
  | cons kv rest ih =>
    intro hany
    rcases kv with ⟨k1, v1⟩
    by_cases hk : k1 = k
    · subst hk
      have e1 : (if (k1, v1).1 = k1 then (k1, v) else (k1, v1)) = (k1, v) := by simp
      rw [List.map_cons, e1]
      simp [objGet]
    · simp only [List.any_cons] at hany
      have hrest : rest.any (fun kv => kv.1 = k) = true := by
        rcases Bool.or_eq_true_iff.mp hany with hx | hx
        · exact absurd (by simpa using hx) hk
        · exact hx
      have e1 : (if (k1, v1).1 = k then (k, v) else (k1, v1)) = (k1, v1) := by simp [hk]
      rw [List.map_cons, e1]
      simp only [objGet, if_neg hk]
      exact ih hrest

theorem objGet_objSet_self (kvs : List (String × Json)) (k : String) (v : Json) :
    objGet (objSet kvs k v) k = some v := by
  unfold objSet
  by_cases hany : kvs.any (fun kv => kv.1 = k) = true
  · rw [if_pos hany]
    exact objGet_overwrite k v kvs hany
  · rw [if_neg hany]
    have hnone : objGet kvs k = none := by
      apply objGet_eq_none_of_not_any
      intro kv hkv hc
      exact hany (List.any_eq_true.mpr ⟨kv, hkv, by simp [hc]⟩)
    rw [objGet_append, hnone]
    simp

theorem feature_hash_isSome_of_props_obj {kvs pk : List (String × Json)}
    (h : objGet kvs "properties" = some (.obj pk)) :
    (feature_hash (.obj kvs)).isSome = true := by
  have hd : (objGet kvs "properties").getD (.obj []) = .obj pk := by rw [h]; rfl
  rw [feature_hash_obj _ _ hd]
  rfl

theorem add_props_hash_some {f g : Json} {fn c : String}
    (h : add_props f fn c = some g) : (feature_hash g).isSome = true := by
  cases f with
  | obj kvs =>
    simp only [add_props] at h
    rcases hval : (objGet (if (objGet kvs "properties").isSome then kvs
        else kvs ++ [("properties", .obj [])]) "properties").getD (.obj []) with
      _ | b | q | s | xs | pkvs <;> rw [hval] at h <;> try simp only at h
    · exact absurd h (by simp)
    · exact absurd h (by simp)
    · exact absurd h (by simp)
    · exact absurd h (by simp)
    · exact absurd h (by simp)
    · simp only [Option.some.injEq] at h
      subst h
      exact feature_hash_isSome_of_props_obj (objGet_objSet_self _ _ _)
  | null => exact absurd h (by simp [add_props])
  | bool b => exact absurd h (by simp [add_props])
  | num q => exact absurd h (by simp [add_props])
  | str s => exact absurd h (by simp [add_props])
  | arr xs => exact absurd h (by simp [add_props])

theorem wrapGeom_hash_some (g : Json) (fn c : String) :
    (feature_hash (wrapGeom g fn c)).isSome = true := by
  exact feature_hash_isSome_of_props_obj
    (show objGet _ "properties"
        = some (.obj [("ProductionPlace", .str fn), ("ProducerCountry", .str c)]) by
      simp [wrapGeom, objGet])

theorem mapM_option_mem {α β : Type} (g : α → Option β) :
    ∀ (l : List α) (out : List β), l.mapM g = some out → ∀ b ∈ out, ∃ a ∈ l, g a = some b := by
  intro l
  induction l with
  | nil =>
    intro out h b hb
    simp only [List.mapM_nil, Option.pure_def, Option.some.injEq] at h
    subst h
    simp at hb
  | cons a rest ih =>
    intro out h b hb
    rw [List.mapM_cons] at h
    rcases ha : g a with _ | x <;> rw [ha] at h
    · exact absurd h (by simp)
    · rcases hr : rest.mapM g with _ | xs <;> rw [hr] at h
      · exact absurd h (by simp)
      · simp at h
        subst h
        rcases List.mem_cons.mp hb with rfl | hb'
        · exact ⟨a, by simp, ha⟩
        · rcases ih xs hr b hb' with ⟨a', ha1, ha2⟩
          exact ⟨a', by simp [ha1], ha2⟩

theorem fcMember_hash_some {fn c : String} {m feat : Json}
    (h : fcMember fn c m = some (some feat)) : (feature_hash feat).isSome = true := by
  cases m with
  | obj fkvs =>
    simp only [fcMember] at h
    by_cases ht : objGet fkvs "type" = some (.str "Feature")
    · rw [if_pos ht] at h
      rcases ha : add_props (.obj fkvs) fn c with _ | g
      · rw [ha] at h
        simp at h
      · rw [ha] at h
        simp only [Option.map_some', Option.some.injEq] at h
        exact h ▸ add_props_hash_some ha
    · rw [if_neg ht] at h
      rcases hty : objGet fkvs "type" with _ | tv
      · rw [hty] at h
        simp at h
      · rw [hty] at h
        cases tv with
        | str s =>
          by_cases hs : s ∈ GEOM_TYPES
          · simp only [if_pos hs] at h
            simp only [Option.some.injEq] at h
            exact h ▸ wrapGeom_hash_some _ _ _
          · simp only [if_neg hs] at h
            simp at h
        | null => simp at h
        | bool b => simp at h
        | num q => simp at h
        | arr xs => simp at h
        | obj kv2 => simp at h
  | null => simp [fcMember] at h
  | bool b => simp [fcMember] at h
  | num q => simp [fcMember] at h
  | str s => simp [fcMember] at h
  | arr xs => simp [fcMember] at h

/-- Every feature `to_features` outputs carries an object `properties`
(the annotation just wrote it), so its fingerprint is defined. -/
theorem to_features_hash_some {o : Json} {fn c : String} {fs : List Json}
    (h : to_features o fn c = some fs) : ∀ f ∈ fs, (feature_hash f).isSome = true := by
  intro f hf
  cases o with
  | obj kvs =>
    simp only [to_features] at h
    by_cases hfc : objGet kvs "type" = some (.str "FeatureCollection")
    · rw [if_pos hfc] at h
      rcases hfs : (objGet kvs "features").getD (.arr []) with _ | b | q | s | ms | fkv <;>
        rw [hfs] at h
      · simp at h
      · simp at h
      · simp at h
      · by_cases hse : s = ""
        · simp only [if_pos hse, Option.some.injEq] at h
          subst h
          simp at hf
        · simp only [if_neg hse] at h
          simp at h
      · simp only at h
        rcases hmm : ms.mapM (fcMember fn c) with _ | l
        · rw [hmm] at h
          simp at h
        · rw [hmm] at h
          simp only [Option.map_some', Option.some.injEq] at h
          subst h
          rcases List.mem_filterMap.mp hf with ⟨ob, hob, hid⟩
          rcases mapM_option_mem _ ms l hmm ob hob with ⟨m, _, hmem⟩
          cases ob with
          | none => simp at hid
          | some feat =>
            simp only [id, Option.some.injEq] at hid
            subst hid
            exact fcMember_hash_some hmem
      · by_cases hfe : fkv = []
        · simp only [if_pos hfe, Option.some.injEq] at h
          subst h
          simp at hf
        · simp only [if_neg hfe] at h
          simp at h
    · rw [if_neg hfc] at h
      by_cases hft : objGet kvs "type" = some (.str "Feature")
      · rw [if_pos hft] at h
        rcases ha : add_props (.obj kvs) fn c with _ | g
        · rw [ha] at h
          simp at h
        · rw [ha] at h
          simp only [Option.map_some', Option.some.injEq] at h
          subst h
          simp only [List.mem_singleton] at hf
          exact hf ▸ add_props_hash_some ha
      · rw [if_neg hft] at h
        rcases hty : objGet kvs "type" with _ | tv
        · rw [hty] at h
          simp only [Option.some.injEq] at h
          subst h
          simp at hf
        · rw [hty] at h
          cases tv with
          | str s =>
            by_cases hs : s ∈ GEOM_TYPES
            · simp only [if_pos hs, Option.some.injEq] at h
              subst h
              simp only [List.mem_singleton] at hf
              exact hf ▸ wrapGeom_hash_some _ _ _
            · simp only [if_neg hs, Option.some.injEq] at h
              subst h
              simp at hf
          | null => simp only [Option.some.injEq] at h; subst h; simp at hf
          | bool b => simp only [Option.some.injEq] at h; subst h; simp at hf
          | num q => simp only [Option.some.injEq] at h; subst h; simp at hf
          | arr xs => simp only [Option.some.injEq] at h; subst h; simp at hf
          | obj kv2 => simp only [Option.some.injEq] at h; subst h; simp at hf
  | null => simp [to_features] at h
  | bool b => simp [to_features] at h
  | num q => simp [to_features] at h
  | str s => simp [to_features] at h
  | arr xs => simp [to_features] at h

theorem allMergedFeatures_cons (country : String) (p : String) (data : Json)
    (rest : List (String × Json)) :
    allMergedFeatures country ((p, data) :: rest)
      = (to_features data (pathStem p) country).getD [] ++ allMergedFeatures country rest := by
  simp [allMergedFeatures]

theorem mergeFold_spec (country : String) (files : List (String × Json)) :
    ∀ (seen acc : List Json),
    (∀ pf ∈ files, (to_features pf.2 (pathStem pf.1) country).isSome = true) →
    ((mergeFold country seen acc files).2.length
        = acc.length + ((allFingerprints country files).toFinset \ seen.toFinset).card
     ∧ ((mergeFold country seen acc files).1).toFinset
        = seen.toFinset ∪ (allFingerprints country files).toFinset) := by
  induction files with
  | nil =>
    intro seen acc _
    simp [mergeFold, allFingerprints, allMergedFeatures]
  | cons pf rest ih =>
    intro seen acc hwf
    rcases pf with ⟨p, data⟩
    have hts : (to_features data (pathStem p) country).isSome = true :=
      hwf (p, data) (by simp)
    rcases Option.isSome_iff_exists.mp hts with ⟨fs, hfs⟩
    have hrest : ∀ pf ∈ rest, (to_features pf.2 (pathStem pf.1) country).isSome = true :=
      fun pf hpf => hwf pf (by simp [hpf])
    have hstep : mergeFold country seen acc ((p, data) :: rest)
        = mergeFold country (processFeats seen acc fs).1 (processFeats seen acc fs).2 rest := by
      simp [mergeFold, hfs]
    have hfp : allFingerprints country ((p, data) :: rest)
        = fs.filterMap feature_hash ++ allFingerprints country rest := by
      unfold allFingerprints
      rw [allMergedFeatures_cons, hfs]
      simp [List.filterMap_append]
    rcases processFeats_spec fs seen acc (to_features_hash_some hfs) with ⟨pl, ps⟩
    rcases ih (processFeats seen acc fs).1 (processFeats seen acc fs).2 hrest with ⟨il, is_⟩
    rw [hstep, hfp]
    constructor
    · rw [il, pl, ps, List.toFinset_append, card_union_sdiff_split]
      omega
    · rw [is_, ps, List.toFinset_append, Finset.union_assoc]

/-- C1: for well-formed inputs (each file normalises without raising), the
merged feature list has exactly one feature per distinct fingerprint across
all input features. -/
theorem merge_unique_feature_count (country : String) (files : List (String × Json))
    (hwf : ∀ pf ∈ files, (to_features pf.2 (pathStem pf.1) country).isSome = true) :
    (merge_features country files).length = (allFingerprints country files).toFinset.card := by
  have hm := (mergeFold_spec country files [] [] hwf).1
  simpa [merge_features] using hm

/-- Witness for C1: the spec's two-file scenario — `a.geojson` a bare Point,
`b.geojson` a FeatureCollection with one Feature of the same Point — merged
with country "NZ": the hypotheses hold, the merge keeps exactly 1 feature
(both inputs collapse by fingerprint), and 2 files were scanned. -/
theorem merge_unique_feature_count_witness :
    (∀ pf ∈ scenarioFiles, (to_features pf.2 (pathStem pf.1) "NZ").isSome = true)
    ∧ (merge_features "NZ" scenarioFiles).length
        = (allFingerprints "NZ" scenarioFiles).toFinset.card
    ∧ (merge_features "NZ" scenarioFiles).length = 1
    ∧ scenarioFiles.length = 2 :=
  ⟨by decide, merge_unique_feature_count "NZ" scenarioFiles (by decide), by decide, rfl⟩

theorem closeRing_length (c : ℚ × ℚ) (rest : List (ℚ × ℚ)) :
    (closeRing (c :: rest)).length
      = if (c :: rest).getLast? = some c then (c :: rest).length
        else (c :: rest).length + 1 := by
  unfold closeRing
  by_cases hcl : (c :: rest).getLast? = some c
  · simp [hcl]
  · simp [hcl]

/-- C3 counterexample: a group with exactly three valid coordinate pairs that
is already closed — (0,0), (1,1), (0,0) — does NOT produce a Polygon feature:
shapely only appends the closing vertex when the first and last differ, GEOS
rejects a 3-point ring, so `Polygon(coords)` raises and the conversion aborts
with no feature emitted, refuting the claim's unconditional 3+-pairs case. -/
theorem group_geometry_three_closed_raises :
    group_geometry [(some 0, some 0), (some 1, some 1), (some 0, some 0)] = .error () := by
  decide

/-- C3 (amended): per CSV group — zero valid coordinate pairs: the group is
skipped and no feature geometry is emitted (not an error); one or two valid
pairs: a `Point` from the first pair; three or more valid pairs: a `Polygon`
whose exterior ring is the closed version of the ordered coordinate sequence
(starting and ending at the first vertex), EXCEPT when the closed ring has
fewer than 4 points — exactly the groups of three pairs whose first and last
pair coincide — where shapely's `Polygon()` raises and the conversion
aborts. -/
theorem group_geometry_cases (rows : List (Option ℚ × Option ℚ)) :
    (validCoords rows = [] → group_geometry rows = .ok none)
    ∧ (∀ c rest, validCoords rows = c :: rest → rest.length ≤ 1 →
        group_geometry rows = .ok (some (pointGeom c)))
    ∧ (3 ≤ (validCoords rows).length →
        (4 ≤ (closeRing (validCoords rows)).length →
          group_geometry rows = .ok (some (polygonGeom (closeRing (validCoords rows))))
          ∧ (closeRing (validCoords rows)).head? = (validCoords rows).head?
          ∧ (closeRing (validCoords rows)).getLast? = (validCoords rows).head?)
        ∧ ((closeRing (validCoords rows)).length < 4 → group_geometry rows = .error ()))
    ∧ (∀ c rest, validCoords rows = c :: rest → 3 ≤ (validCoords rows).length →
        ((closeRing (validCoords rows)).length < 4 ↔
          (validCoords rows).length = 3 ∧ (validCoords rows).getLast? = some c)) := by
  refine ⟨?_, ?_, ?_, ?_⟩
  · intro hz
    simp [group_geometry, hz]
  · intro c rest hc hlen
    have h3' : ¬ 3 ≤ (c :: rest).length := by
      simp only [List.length_cons]
      omega
    simp [group_geometry, hc, h3']
    intro hx
    exfalso
    simp only [List.length_cons] at h3'
    omega
  · intro h3
    rcases hv : validCoords rows with _ | ⟨c, rest⟩
    · rw [hv] at h3
      simp at h3
    · rw [hv] at h3
      constructor
      · intro h4
        have hring : shapelyExteriorRing (c :: rest) = .ok (closeRing (c :: rest)) := by
          simp [shapelyExteriorRing, h4]
        refine ⟨?_, ?_, ?_⟩
        · simp [group_geometry, hv, h3, hring]
          intro hx
          exfalso
          simp only [List.length_cons] at h3
          omega
        · unfold closeRing
          by_cases hcl : (c :: rest).getLast? = some c
          · simp [hcl]
          · simp [hcl]
        · unfold closeRing
          by_cases hcl : (c :: rest).getLast? = some c
          · simp [hcl]
          · simp only [if_neg hcl]
            show ((c :: rest) ++ [c]).getLast? = some c
            exact List.getLast?_concat _
      · intro h4
        have hring : shapelyExteriorRing (c :: rest) = .error () := by
          simp only [shapelyExteriorRing]
          rw [if_neg (by omega)]
        simp [group_geometry, hv, h3, hring]
        simp only [List.length_cons] at h3
        omega
  · intro c rest hv h3
    rw [hv] at h3 ⊢
    rw [closeRing_length]
    by_cases hcl : (c :: rest).getLast? = some c
    · rw [if_pos hcl]
      simp only [List.length_cons] at h3 ⊢
      constructor
      · intro hlt
        exact ⟨by omega, hcl⟩
      · rintro ⟨heq, _⟩
        omega
    · rw [if_neg hcl]
      simp only [List.length_cons] at h3 ⊢
      constructor
      · intro hlt
        exfalso
        omega
      · rintro ⟨_, hcl2⟩
        exact absurd hcl2 hcl

/-- Witness for C3 (amended): all-invalid rows are skipped; two valid pairs
(with an invalid row between them) give a Point at the first pair; three
unclosed pairs give a Polygon closed back to the first vertex; three pairs
already closed hit the GEOS ring-size error. -/
theorem group_geometry_cases_witness :
    group_geometry [(none, none)] = .ok none
    ∧ group_geometry [(some 1, some 2), (none, some 5), (some 3, some 4)]
        = .ok (some (pointGeom (1, 2)))
    ∧ group_geometry [(some 0, some 0), (some 1, some 0), (some 0, some 1)]
        = .ok (some (polygonGeom (closeRing
            (validCoords [(some 0, some 0), (some 1, some 0), (some 0, some 1)]))))
    ∧ closeRing (validCoords [(some 0, some 0), (some 1, some 0), (some 0, some 1)])
        = [(0, 0), (1, 0), (0, 1), (0, 0)]
    ∧ group_geometry [(some 2, some 2), (some 3, some 3), (some 2, some 2)] = .error () :=
  ⟨(group_geometry_cases _).1 (by decide),
   (group_geometry_cases _).2.1 (1, 2) [(3, 4)] (by decide) (by decide),
   (((group_geometry_cases _).2.2.1 (by decide)).1 (by decide)).1,
   by decide,
   ((group_geometry_cases _).2.2.1 (by decide)).2 (by decide)⟩

theorem find?_first {α : Type} (p : α → Bool) :
    ∀ (l1 : List α) (a : α) (l2 : List α),
    (∀ b ∈ l1, p b = false) → p a = true → List.find? p (l1 ++ a :: l2) = some a := by
  intro l1
  induction l1 with
  | nil =>
    intro a l2 _ hp
    simp [List.find?_cons, hp]
  | cons b rest ih =>
    intro a l2 hfalse hp
    have hb : p b = false := hfalse b (by simp)
    simp only [List.cons_append, List.find?_cons, hb]
    exact ih a l2 (fun x hx => hfalse x (by simp [hx])) hp

theorem lookup_resolve (headers : List String) (c : String) (opts : List String) :
    ∀ t : List (String × List String), (c, opts) ∈ t → (t.map Prod.fst).Nodup →
    (t.map (fun ca => (ca.1, ca.2.find? (fun o => headers.contains o)))).lookup c
      = some (opts.find? (fun o => headers.contains o)) := by
  intro t
  induction t with
  | nil => intro h _; simp at h
  | cons ca rest ih =>
    intro hmem hnod
    rcases List.mem_cons.mp hmem with heq | hmem'
    · subst heq
      simp [List.lookup]
    · have hne : ca.1 ≠ c := by
        simp only [List.map_cons, List.nodup_cons] at hnod
        intro hc
        exact hnod.1 (hc ▸ (List.mem_map.mpr ⟨(c, opts), hmem', rfl⟩))
      have hbe : (c == ca.1) = false := by
        simp only [beq_eq_false_iff_ne, ne_eq]
        exact fun hc => hne hc.symm
      simp only [List.map_cons, List.lookup, hbe]
      exact ih hmem' (by simp only [List.map_cons, List.nodup_cons] at hnod; exact hnod.2)

/-- C4 counterexample: with header row `["X", "Longitude"]` — both aliases of
`longitude`, with `"X"` earlier in the header row — the source resolves
`longitude` to `"Longitude"` (the first ALIAS in the alias-list order),
not to `"X"` (the first matching header left-to-right, as the claim
states). -/
theorem resolve_columns_header_order_violated :
    (resolve_columns ["X", "Longitude"]).lookup "longitude" = some (some "Longitude")
    ∧ (resolve_columns_by_header ["X", "Longitude"]).lookup "longitude" = some (some "X")
    ∧ ¬ ((some (some "Longitude") : Option (Option String)) = some (some "X")) :=
  ⟨by decide, by decide, by decide⟩

/-- C4 (amended): for each canonical field, resolution scans that field's
ALIAS LIST left-to-right (case-sensitive exact match) and the first alias
present among the input's headers wins — so when a header row contains two
aliases of the same field, the one earlier in the alias list (not the one
earlier in the header row) is chosen; if no alias matches, the field resolves
to absent. -/
theorem resolve_columns_alias_precedence (headers : List String) (c : String)
    (opts : List String) (hmem : (c, opts) ∈ COLUMN_ALIASES) :
    (resolve_columns headers).lookup c = some (opts.find? (fun o => headers.contains o))
    ∧ ((opts.find? (fun o => headers.contains o) = none) ↔ ∀ o ∈ opts, o ∉ headers)
    ∧ (∀ l1 a l2, opts = l1 ++ a :: l2 → (∀ b ∈ l1, b ∉ headers) → a ∈ headers →
        (resolve_columns headers).lookup c = some (some a)) := by
  have hlk : (resolve_columns headers).lookup c
      = some (opts.find? (fun o => headers.contains o)) := by
    apply lookup_resolve headers c opts COLUMN_ALIASES hmem
    decide
  refine ⟨hlk, ?_, ?_⟩
  · constructor
    · intro hnone o ho hmemh
      have hno := List.find?_eq_none.mp hnone o ho
      rw [Bool.not_eq_true] at hno
      exact absurd hmemh (by simpa using hno)
    · intro hall
      apply List.find?_eq_none.mpr
      intro o ho
      rw [Bool.not_eq_true]
      simpa using hall o ho
  · intro l1 a l2 hsplit hl1 ha
    rw [hlk, hsplit]
    rw [find?_first _ l1 a l2
      (fun b hb => by simpa using hl1 b hb)
      (by simpa using ha)]

/-- Witness for C4 (amended): the `longitude` row of the alias table with the
two-alias header — the alias-list-first alias `"Longitude"` wins even though
`"X"` comes first in the header row, and a field with no matching alias
resolves to absent. -/
theorem resolve_columns_alias_precedence_witness :
    (resolve_columns ["X", "Longitude"]).lookup "longitude"
      = some (["Longitude", "Lon", "LONG", "X"].find?
          (fun o => (["X", "Longitude"] : List String).contains o))
    ∧ (resolve_columns ["X", "Longitude"]).lookup "longitude" = some (some "Longitude")
    ∧ (resolve_columns ["X", "Longitude"]).lookup "producer" = some none :=
  ⟨(resolve_columns_alias_precedence ["X", "Longitude"] "longitude"
      ["Longitude", "Lon", "LONG", "X"] (by decide)).1,
   by decide, by decide⟩

theorem pySlice_append (g1 mid g2 : List Char) :
    pySlice (g1 ++ mid ++ g2) g1.length (g1.length + mid.length) = mid := by
  unfold pySlice
  have e1 : g1 ++ mid ++ g2 = g1 ++ (mid ++ g2) := by
    simp [List.append_assoc]
  rw [e1, List.drop_left]
  have e2 : g1.length + mid.length - g1.length = mid.length := by omega
  rw [e2, List.take_left]

theorem clean_json_eq_of_markers {text : List Char} {s e : ℕ}
    (hs : strFind text OPEN_MARKER = some s) (he : strRFind text END_MARKER = some e) :
    clean_json_from_bin text = some (pySlice text s (e + END_MARKER.length)) := by
  unfold clean_json_from_bin
  rw [hs, he]

theorem clean_json_eq_of_no_markers {text : List Char}
    (hdead : strFind text OPEN_MARKER = none ∨ strRFind text END_MARKER = none) :
    clean_json_from_bin text =
      (match strFind text ['\x7b'], strRFind text ['\x7d'] with
       | some f, some l =>
         if f < l ∧ occursSub TYPE_KEY (pySlice text f l) = true then
           some (pySlice text f (l + 1))
         else none
       | _, _ => none) := by
  unfold clean_json_from_bin
  rcases hdead with hn | hn
  · rw [hn]
  · rcases ho : strFind text OPEN_MARKER with _ | s
    · rfl
    · rw [hn]

/-- Heuristic behaviour of `clean_json_from_bin` on already-decoded text —
(i) when the opening marker and the Polygon closing marker are both found,
the result is the inclusive substring from the first opening marker to the
last closing marker; (ii) otherwise the outermost brace pair, accepted only
when the braced text contains a quoted `type` key; when neither heuristic
matches the result is `none`. -/
theorem clean_json_from_bin_heuristics (text : List Char) :
    (∀ g1 payload g2, text = g1 ++ OPEN_MARKER ++ payload ++ END_MARKER ++ g2 →
       strFind text OPEN_MARKER = some g1.length →
       strRFind text END_MARKER = some (g1.length + OPEN_MARKER.length + payload.length) →
       clean_json_from_bin text = some (OPEN_MARKER ++ payload ++ END_MARKER))
    ∧ ((strFind text OPEN_MARKER = none ∨ strRFind text END_MARKER = none) →
       ∀ f l, strFind text ['\x7b'] = some f → strRFind text ['\x7d'] = some l →
         f < l → occursSub TYPE_KEY (pySlice text f l) = true →
         clean_json_from_bin text = some (pySlice text f (l + 1)))
    ∧ ((strFind text OPEN_MARKER = none ∨ strRFind text END_MARKER = none) →
       (∀ f l, strFind text ['\x7b'] = some f → strRFind text ['\x7d'] = some l →
         ¬(f < l ∧ occursSub TYPE_KEY (pySlice text f l) = true)) →
       clean_json_from_bin text = none) := by
  refine ⟨?_, ?_, ?_⟩
  · intro g1 payload g2 htext hfind hrfind
    rw [clean_json_eq_of_markers hfind hrfind]
    congr 1
    subst htext
    have e1 : g1 ++ OPEN_MARKER ++ payload ++ END_MARKER ++ g2
        = g1 ++ (OPEN_MARKER ++ payload ++ END_MARKER) ++ g2 := by
      simp [List.append_assoc]
    have e2 : g1.length + OPEN_MARKER.length + payload.length + END_MARKER.length
        = g1.length + (OPEN_MARKER ++ payload ++ END_MARKER).length := by
      simp only [List.length_append]
      omega
    rw [e1, e2, pySlice_append]
  · intro hdead f l hf hl hlt hocc
    rw [clean_json_eq_of_no_markers hdead, hf, hl]
    show (if f < l ∧ occursSub TYPE_KEY (pySlice text f l) = true then
        some (pySlice text f (l + 1)) else none) = some (pySlice text f (l + 1))
    rw [if_pos ⟨hlt, hocc⟩]
  · intro hdead hno
    rw [clean_json_eq_of_no_markers hdead]
    rcases hf : strFind text ['\x7b'] with _ | f
    · rfl
    · rcases hl : strRFind text ['\x7d'] with _ | l
      · rfl
      · show (if f < l ∧ occursSub TYPE_KEY (pySlice text f l) = true then
            some (pySlice text f (l + 1)) else none) = none
        rw [if_neg (hno f l hf hl)]

/-- Concrete instances of the text-level heuristics: both markers, brace
fallback, and no match. -/
theorem clean_json_from_bin_heuristics_witness :
    clean_json_from_bin binText1 = some (OPEN_MARKER ++ "P".data ++ END_MARKER)
    ∧ clean_json_from_bin binText2 = some (pySlice binText2 1 (10 + 1))
    ∧ pySlice binText2 1 (10 + 1) = "\x7bx\"type\"y\x7d".data
    ∧ clean_json_from_bin "abc".data = none :=
  ⟨(clean_json_from_bin_heuristics binText1).1 "AB".data "P".data "Z".data
      (by decide) (by decide) (by decide),
   (clean_json_from_bin_heuristics binText2).2.1 (by decide) 1 10
      (by decide) (by decide) (by decide) (by decide),
   by decide,
   (clean_json_from_bin_heuristics "abc".data).2.2 (by decide)
      (fun f l hf hl => by
        have hnone : strFind "abc".data ['\x7b'] = none := by decide
        rw [hnone] at hf
        exact absurd hf (by simp))⟩

/-- C5 counterexample: the claim describes the decode step as lossy
SUBSTITUTION of undecodable bytes, but the source uses `errors='ignore'`
(deletion), and the two recoveries observably differ: in `cexBytes` one
invalid byte splits the opening marker — deleting it re-forms `OPEN_MARKER`
and heuristic (i) fires, while substituting U+FFFD leaves no opening marker
and the brace fallback returns a different span containing the replacement
character. -/
theorem clean_json_substitution_decode_refuted :
    clean_json_from_bin (utf8DecodeIgnore cexBytes)
      = some ("\x7b\"type\":1,\"type\":\"Polygon\"\x7d\x7d]\x7d".data)
    ∧ clean_json_from_bin (utf8DecodeReplace cexBytes)
      = some ("\x7b\"ty\uFFFDpe\":1,\"type\":\"Polygon\"\x7d\x7d]\x7d".data)
    ∧ clean_json_from_bin (utf8DecodeIgnore cexBytes)
        ≠ clean_json_from_bin (utf8DecodeReplace cexBytes) :=
  ⟨by decide, by decide, by decide⟩

/-- C5 (amended): for a `.bin` payload that is not itself a zip,
text-scrubbing recovery decodes the bytes as UTF-8 with lossy DELETION of
undecodable bytes (`errors='ignore'`, not substitution) and applies two
heuristics in order: (i) when the opening marker `\x7b"type":` and the
Polygon closing marker are both found, the result is the inclusive substring
from the first opening marker to the last closing marker; (ii) otherwise the
outermost brace pair, accepted only when the braced text contains a quoted
`type` key; if neither heuristic matches, the binary counts as an error. -/
theorem clean_json_recovery_heuristics (bs : List ℕ) :
    (∀ g1 payload g2,
       utf8DecodeIgnore bs = g1 ++ OPEN_MARKER ++ payload ++ END_MARKER ++ g2 →
       strFind (utf8DecodeIgnore bs) OPEN_MARKER = some g1.length →
       strRFind (utf8DecodeIgnore bs) END_MARKER
         = some (g1.length + OPEN_MARKER.length + payload.length) →
       clean_json_from_bin (utf8DecodeIgnore bs)
         = some (OPEN_MARKER ++ payload ++ END_MARKER))
    ∧ ((strFind (utf8DecodeIgnore bs) OPEN_MARKER = none
        ∨ strRFind (utf8DecodeIgnore bs) END_MARKER = none) →
       ∀ f l, strFind (utf8DecodeIgnore bs) ['\x7b'] = some f →
         strRFind (utf8DecodeIgnore bs) ['\x7d'] = some l →
         f < l → occursSub TYPE_KEY (pySlice (utf8DecodeIgnore bs) f l) = true →
         clean_json_from_bin (utf8DecodeIgnore bs)
           = some (pySlice (utf8DecodeIgnore bs) f (l + 1)))
    ∧ ((strFind (utf8DecodeIgnore bs) OPEN_MARKER = none
        ∨ strRFind (utf8DecodeIgnore bs) END_MARKER = none) →
       (∀ f l, strFind (utf8DecodeIgnore bs) ['\x7b'] = some f →
         strRFind (utf8DecodeIgnore bs) ['\x7d'] = some l →
         ¬(f < l ∧ occursSub TYPE_KEY (pySlice (utf8DecodeIgnore bs) f l) = true)) →
       clean_json_from_bin (utf8DecodeIgnore bs) = none) :=
  clean_json_from_bin_heuristics (utf8DecodeIgnore bs)

/-- Witness for C5 (amended): an all-ASCII payload with both markers slices
between them inclusive; a payload whose trailing byte is undecodable (and
deleted) falls to the brace heuristic and recovers the braced text; a payload
matching neither heuristic yields an error. -/
theorem clean_json_recovery_heuristics_witness :
    clean_json_from_bin (utf8DecodeIgnore (binText1.map Char.toNat))
      = some (OPEN_MARKER ++ "P".data ++ END_MARKER)
    ∧ clean_json_from_bin (utf8DecodeIgnore (binText2.map Char.toNat ++ [0xFF]))
      = some (pySlice (utf8DecodeIgnore (binText2.map Char.toNat ++ [0xFF])) 1 (10 + 1))
    ∧ pySlice (utf8DecodeIgnore (binText2.map Char.toNat ++ [0xFF])) 1 (10 + 1)
      = "\x7bx\"type\"y\x7d".data
    ∧ clean_json_from_bin (utf8DecodeIgnore (toBytes "abc")) = none :=
  ⟨(clean_json_recovery_heuristics (binText1.map Char.toNat)).1 "AB".data "P".data "Z".data
      (by decide) (by decide) (by decide),
   (clean_json_recovery_heuristics (binText2.map Char.toNat ++ [0xFF])).2.1
      (by decide) 1 10 (by decide) (by decide) (by decide) (by decide),
   by decide,
   (clean_json_recovery_heuristics (toBytes "abc")).2.2 (by decide)
      (fun f l hf hl => by
        have hnone : strFind (utf8DecodeIgnore (toBytes "abc")) ['\x7b'] = none := by decide
        rw [hnone] at hf
        exact absurd hf (by simp))⟩

/-- Folding a list of coordinate pairs into the envelope. -/
def accAddList (acc : BAcc) (P : List (ℚ × ℚ)) : BAcc :=
  P.foldl accAdd acc

theorem accAddList_append (acc : BAcc) (P Q : List (ℚ × ℚ)) :
    accAddList acc (P ++ Q) = accAddList (accAddList acc P) Q :=
  List.foldl_append accAdd acc P Q

mutual

theorem walk_coords_pairs : ∀ (j : Json) (acc : BAcc),
    walk_coords j acc = accAddList acc (coordPairs j)
  | .null, _ => rfl
  | .bool _, _ => rfl
  | .num _, _ => rfl
  | .str _, _ => rfl
  | .obj _, _ => rfl
  | .arr xs, acc => by
      rcases hp : pairHead xs with _ | p
      · simp only [walk_coords, coordPairs, hp]
        exact walkList_pairs xs acc
      · simp only [walk_coords, coordPairs, hp]
        rfl

theorem walkList_pairs : ∀ (xs : List Json) (acc : BAcc),
    walkList xs acc = accAddList acc (coordPairsList xs)
  | [], _ => rfl
  | x :: rest, acc => by
      simp only [walkList, coordPairsList]
      rw [walk_coords_pairs x acc, walkList_pairs rest _, accAddList_append]

end

theorem gcWalk_pairs : ∀ (gs : List Json) (acc acc' : BAcc),
    gcWalk gs acc = .ok acc' → acc' = accAddList acc (gcPairs gs) := by
  intro gs
  induction gs with
  | nil =>
    intro acc acc' h
    simp only [gcWalk, Except.ok.injEq] at h
    simp [accAddList, gcPairs, h]
  | cons g rest ih =>
    intro acc acc' h
    cases g with
    | obj gk =>
      simp only [gcWalk] at h
      rw [ih _ _ h, gcPairs, accAddList_append,
        walk_coords_pairs ((objGet gk "coordinates").getD .null) acc]
    | null => exact absurd h (by simp [gcWalk])
    | bool b => exact absurd h (by simp [gcWalk])
    | num q => exact absurd h (by simp [gcWalk])
    | str s => exact absurd h (by simp [gcWalk])
    | arr xs => exact absurd h (by simp [gcWalk])

theorem featureWalk_pairs {f : Json} {acc acc' : BAcc}
    (h : featureWalk f acc = .ok acc') : acc' = accAddList acc (featurePairs f) := by
  cases f with
  | obj fkvs =>
    simp only [featureWalk] at h
    simp only [featurePairs]
    by_cases hfal : falsy ((objGet fkvs "geometry").getD .null) = true
    · rw [if_pos hfal] at h
      rw [if_pos hfal]
      simp only [Except.ok.injEq] at h
      simp [accAddList, h]
    · rw [if_neg hfal] at h
      rw [if_neg hfal]
      rcases hg : (objGet fkvs "geometry").getD .null with _ | b | q | s | xs | gkvs <;>
        rw [hg] at h
      · exact absurd h (by simp)
      · exact absurd h (by simp)
      · exact absurd h (by simp)
      · exact absurd h (by simp)
      · exact absurd h (by simp)
      · try simp only at h
        try simp only [hg]
        by_cases hgc : (objGet gkvs "coordinates").getD .null = .null
            ∧ objGet gkvs "type" = some (.str "GeometryCollection")
        · rw [if_pos hgc] at h
          rw [if_pos hgc]
          rcases hgs : (objGet gkvs "geometries").getD (.arr []) with _ | b | q | s | gs | kv2 <;>
            rw [hgs] at h <;> try simp only [hgs]
          · exact absurd h (by simp)
          · exact absurd h (by simp)
          · exact absurd h (by simp)
          · simp only at h
            by_cases hse : s = ""
            · rw [if_pos hse] at h
              simp only [Except.ok.injEq] at h
              simp [accAddList, h]
            · rw [if_neg hse] at h
              exact absurd h (by simp)
          · simp only at h
            exact gcWalk_pairs gs acc acc' h
          · simp only at h
            by_cases hke : kv2 = []
            · rw [if_pos hke] at h
              simp only [Except.ok.injEq] at h
              simp [accAddList, h]
            · rw [if_neg hke] at h
              exact absurd h (by simp)
        · rw [if_neg hgc] at h
          rw [if_neg hgc]
          simp only [Except.ok.injEq] at h
          rw [← h, walk_coords_pairs]
  | null => exact absurd h (by simp [featureWalk])
  | bool b => exact absurd h (by simp [featureWalk])
  | num q => exact absurd h (by simp [featureWalk])
  | str s => exact absurd h (by simp [featureWalk])
  | arr xs => exact absurd h (by simp [featureWalk])

theorem bboxFold_pairs : ∀ (features : List Json) (acc acc' : BAcc),
    bboxFold features acc = .ok acc' → acc' = accAddList acc (reachablePairs features) := by
  intro features
  induction features with
  | nil =>
    intro acc acc' h
    simp only [bboxFold, Except.ok.injEq] at h
    simp [accAddList, reachablePairs, h]
  | cons f rest ih =>
    intro acc acc' h
    simp only [bboxFold] at h
    rcases hw : featureWalk f acc with e | a1 <;> rw [hw] at h
    · exact absurd h (by simp)
    · have : reachablePairs (f :: rest) = featurePairs f ++ reachablePairs rest := by
        simp [reachablePairs]
      rw [this, accAddList_append, ← featureWalk_pairs hw]
      exact ih a1 acc' h

theorem accAddList_fields : ∀ (P : List (ℚ × ℚ)) (acc : BAcc),
    (accAddList acc P).x0 = (P.map Prod.fst).foldl optMin acc.x0
    ∧ (accAddList acc P).y0 = (P.map Prod.snd).foldl optMin acc.y0
    ∧ (accAddList acc P).x1 = (P.map Prod.fst).foldl optMax acc.x1
    ∧ (accAddList acc P).y1 = (P.map Prod.snd).foldl optMax acc.y1 := by
  intro P
  induction P with
  | nil => intro acc; simp [accAddList]
  | cons p rest ih =>
    intro acc
    simp only [accAddList, List.foldl_cons, List.map_cons]
    exact ih (accAdd acc p)

theorem foldl_optMin_some : ∀ (l : List ℚ) (v : ℚ),
    l.foldl optMin (some v) = some (l.foldl min v) := by
  intro l
  induction l with
  | nil => intro v; rfl
  | cons x rest ih =>
    intro v
    simp only [List.foldl_cons]
    exact ih (min v x)

theorem foldl_optMax_some : ∀ (l : List ℚ) (v : ℚ),
    l.foldl optMax (some v) = some (l.foldl max v) := by
  intro l
  induction l with
  | nil => intro v; rfl
  | cons x rest ih =>
    intro v
    simp only [List.foldl_cons]
    exact ih (max v x)

theorem foldl_min_le : ∀ (l : List ℚ) (v : ℚ),
    l.foldl min v ≤ v ∧ ∀ x ∈ l, l.foldl min v ≤ x := by
  intro l
  induction l with
  | nil => intro v; exact ⟨le_refl v, by simp⟩
  | cons x rest ih =>
    intro v
    rcases ih (min v x) with ⟨h1, h2⟩
    refine ⟨le_trans h1 (min_le_left v x), ?_⟩
    intro y hy
    rcases List.mem_cons.mp hy with rfl | hy'
    · exact le_trans h1 (min_le_right v y)
    · exact h2 y hy'

theorem foldl_max_ge : ∀ (l : List ℚ) (v : ℚ),
    v ≤ l.foldl max v ∧ ∀ x ∈ l, x ≤ l.foldl max v := by
  intro l
  induction l with
  | nil => intro v; exact ⟨le_refl v, by simp⟩
  | cons x rest ih =>
    intro v
    rcases ih (max v x) with ⟨h1, h2⟩
    refine ⟨le_trans (le_max_left v x) h1, ?_⟩
    intro y hy
    rcases List.mem_cons.mp hy with rfl | hy'
    · exact le_trans (le_max_right v y) h1
    · exact h2 y hy'

theorem foldl_min_attain : ∀ (l : List ℚ) (v : ℚ),
    l.foldl min v = v ∨ l.foldl min v ∈ l := by
  intro l
  induction l with
  | nil => intro v; exact Or.inl rfl
  | cons x rest ih =>
    intro v
    rcases ih (min v x) with h | h
    · rcases min_choice v x with hc | hc
      · exact Or.inl (by rw [List.foldl_cons, h, hc])
      · exact Or.inr (by rw [List.foldl_cons, h, hc]; simp)
    · exact Or.inr (by simp only [List.foldl_cons]; simp [h])

theorem foldl_max_attain : ∀ (l : List ℚ) (v : ℚ),
    l.foldl max v = v ∨ l.foldl max v ∈ l := by
  intro l
  induction l with
  | nil => intro v; exact Or.inl rfl
  | cons x rest ih =>
    intro v
    rcases ih (max v x) with h | h
    · rcases max_choice v x with hc | hc
      · exact Or.inl (by rw [List.foldl_cons, h, hc])
      · exact Or.inr (by rw [List.foldl_cons, h, hc]; simp)
    · exact Or.inr (by simp only [List.foldl_cons]; simp [h])

/-- C6: with `add_bbox` true, the output's `bbox`, when present, is the tight
envelope `[minX, minY, maxX, maxY]` over all coordinate pairs reachable from
every kept feature's geometry (GeometryCollection members and nested
multi-geometries included, via the same recursive walk), and the `bbox` key
is omitted entirely when no numeric coordinate is found. -/
theorem merge_bbox_envelope (features : List Json) (r : Option (ℚ × ℚ × ℚ × ℚ))
    (hok : compute_bbox features = .ok r) :
    (r = none ↔ reachablePairs features = [])
    ∧ (∀ a b c d, r = some (a, b, c, d) →
        ((∀ p ∈ reachablePairs features, a ≤ p.1 ∧ b ≤ p.2 ∧ p.1 ≤ c ∧ p.2 ≤ d)
         ∧ a ∈ (reachablePairs features).map Prod.fst
         ∧ b ∈ (reachablePairs features).map Prod.snd
         ∧ c ∈ (reachablePairs features).map Prod.fst
         ∧ d ∈ (reachablePairs features).map Prod.snd))
    ∧ (∃ m, mergedCollection features true = .ok m
        ∧ jsonGet m "bbox"
            = r.map (fun t => Json.arr [.num t.1, .num t.2.1, .num t.2.2.1, .num t.2.2.2])) := by
  have hok0 := hok
  unfold compute_bbox at hok
  rcases hb : bboxFold features ⟨none, none, none, none⟩ with e | accF <;> rw [hb] at hok
  · exact absurd hok (by simp [Except.map])
  · have hmap : accResult accF = r := by
      simpa [Except.map] using hok
    have hacc : accF = accAddList ⟨none, none, none, none⟩ (reachablePairs features) :=
      bboxFold_pairs features _ accF hb
    rcases hP : reachablePairs features with _ | ⟨p, rest⟩
    · rw [hP] at hacc
      have hr : r = none := by
        rw [← hmap, hacc]
        rfl
      subst hr
      refine ⟨by simp, ?_, ?_⟩
      · intro a b c d habs
        exact absurd habs (by simp)
      · refine ⟨.obj [("type", .str "FeatureCollection"), ("features", .arr features)], ?_, ?_⟩
        · unfold mergedCollection
          rw [hok0]
          rfl
        · simp [jsonGet, objGet]
    · rw [hP] at hacc
      rcases accAddList_fields (p :: rest) ⟨none, none, none, none⟩ with ⟨hx0, hy0, hx1, hy1⟩
      rw [← hacc] at hx0 hy0 hx1 hy1
      have ex0 : accF.x0 = some ((rest.map Prod.fst).foldl min p.1) := by
        rw [hx0]
        simp only [List.map_cons, List.foldl_cons]
        exact foldl_optMin_some _ _
      have ey0 : accF.y0 = some ((rest.map Prod.snd).foldl min p.2) := by
        rw [hy0]
        simp only [List.map_cons, List.foldl_cons]
        exact foldl_optMin_some _ _
      have ex1 : accF.x1 = some ((rest.map Prod.fst).foldl max p.1) := by
        rw [hx1]
        simp only [List.map_cons, List.foldl_cons]
        exact foldl_optMax_some _ _
      have ey1 : accF.y1 = some ((rest.map Prod.snd).foldl max p.2) := by
        rw [hy1]
        simp only [List.map_cons, List.foldl_cons]
        exact foldl_optMax_some _ _
      have hr : r = some ((rest.map Prod.fst).foldl min p.1, (rest.map Prod.snd).foldl min p.2,
          (rest.map Prod.fst).foldl max p.1, (rest.map Prod.snd).foldl max p.2) := by
        rw [← hmap]
        unfold accResult
        rw [ex0, ey0, ex1, ey1]
      subst hr
      refine ⟨by simp, ?_, ?_⟩
      · intro a b c d heq
        simp only [Option.some.injEq, Prod.mk.injEq] at heq
        rcases heq with ⟨ha, hbq, hc, hd⟩
        subst ha; subst hbq; subst hc; subst hd
        refine ⟨?_, ?_, ?_, ?_, ?_⟩
        · intro q hq
          rcases List.mem_cons.mp hq with rfl | hq'
          · exact ⟨(foldl_min_le _ _).1, (foldl_min_le _ _).1,
              (foldl_max_ge _ _).1, (foldl_max_ge _ _).1⟩
          · exact ⟨(foldl_min_le _ _).2 q.1 (List.mem_map_of_mem _ hq'),
              (foldl_min_le _ _).2 q.2 (List.mem_map_of_mem _ hq'),
              (foldl_max_ge _ _).2 q.1 (List.mem_map_of_mem _ hq'),
              (foldl_max_ge _ _).2 q.2 (List.mem_map_of_mem _ hq')⟩
        · simp only [List.map_cons]
          rcases foldl_min_attain (rest.map Prod.fst) p.1 with h | h
          · simp [h]
          · simp [List.mem_cons, h]
        · simp only [List.map_cons]
          rcases foldl_min_attain (rest.map Prod.snd) p.2 with h | h
          · simp [h]
          · simp [List.mem_cons, h]
        · simp only [List.map_cons]
          rcases foldl_max_attain (rest.map Prod.fst) p.1 with h | h
          · simp [h]
          · simp [List.mem_cons, h]
        · simp only [List.map_cons]
          rcases foldl_max_attain (rest.map Prod.snd) p.2 with h | h
          · simp [h]
          · simp [List.mem_cons, h]
      · refine ⟨.obj ([("type", .str "FeatureCollection"), ("features", .arr features)]
            ++ [("bbox", Json.arr [.num ((rest.map Prod.fst).foldl min p.1),
                 .num ((rest.map Prod.snd).foldl min p.2),
                 .num ((rest.map Prod.fst).foldl max p.1),
                 .num ((rest.map Prod.snd).foldl max p.2)])]), ?_, ?_⟩
        · unfold mergedCollection
          rw [hok0]
          rfl
        · simp [jsonGet, objGet]

/-- Witness for C6: one feature whose geometry is a GeometryCollection of the
points (1,2) and (3,4) — the walk reaches both members' coordinates, the bbox
is the tight envelope [1, 2, 3, 4], and the merged object carries it under
`bbox`. -/
theorem merge_bbox_envelope_witness :
    compute_bbox [bboxFeature] = .ok (some (1, 2, 3, 4))
    ∧ (∀ p ∈ reachablePairs [bboxFeature], (1 : ℚ) ≤ p.1 ∧ (2 : ℚ) ≤ p.2 ∧ p.1 ≤ 3 ∧ p.2 ≤ 4)
    ∧ (∃ m, mergedCollection [bboxFeature] true = .ok m
        ∧ jsonGet m "bbox" = some (Json.arr [.num 1, .num 2, .num 3, .num 4])) := by
  have hok : compute_bbox [bboxFeature] = .ok (some (1, 2, 3, 4)) := by decide
  have h := merge_bbox_envelope [bboxFeature] (some (1, 2, 3, 4)) hok
  refine ⟨hok, (h.2.1 1 2 3 4 rfl).1, ?_⟩
  rcases h.2.2 with ⟨m, hm1, hm2⟩
  exact ⟨m, hm1, by simpa using hm2⟩

theorem decStrAux_eq_digits : ∀ (n fuel : ℕ), n ≤ fuel →
    decStrAux fuel n = (Nat.digits 10 n).map (fun d => Char.ofNat (48 + d)) := by
  intro n
  induction n using Nat.strong_induction_on with
  | _ n ih =>
    intro fuel hle
    cases fuel with
    | zero =>
      have hz : n = 0 := by omega
      subst hz
      simp [decStrAux]
    | succ f =>
      by_cases hn : n = 0
      · subst hn
        simp [decStrAux]
      · rw [decStrAux, if_neg hn,
          Nat.digits_def' (by norm_num : (1 : ℕ) < 10) (Nat.pos_of_ne_zero hn)]
        simp only [List.map_cons, List.cons.injEq, true_and]
        have hdiv : n / 10 < n := Nat.div_lt_self (Nat.pos_of_ne_zero hn) (by norm_num)
        exact ih (n / 10) hdiv f (by omega)

theorem digitCharInj : ∀ d1 < 10, ∀ d2 < 10,
    Char.ofNat (48 + d1) = Char.ofNat (48 + d2) → d1 = d2 := by decide

theorem map_digitChar_inj : ∀ (l1 l2 : List ℕ), (∀ d ∈ l1, d < 10) → (∀ d ∈ l2, d < 10) →
    l1.map (fun d => Char.ofNat (48 + d)) = l2.map (fun d => Char.ofNat (48 + d)) →
    l1 = l2 := by
  intro l1
  induction l1 with
  | nil =>
    intro l2 _ _ h
    cases l2 with
    | nil => rfl
    | cons e rest2 => simp at h
  | cons d rest ih =>
    intro l2 h1 h2 h
    cases l2 with
    | nil => simp at h
    | cons e rest2 =>
      simp only [List.map_cons, List.cons.injEq] at h
      have hd := digitCharInj d (h1 d (by simp)) e (h2 e (by simp)) h.1
      rw [hd, ih rest2 (fun x hx => h1 x (by simp [hx])) (fun x hx => h2 x (by simp [hx])) h.2]

theorem decStr_inj {m n : ℕ} (hm : 1 ≤ m) (hn : 1 ≤ n) (h : decStr m = decStr n) : m = n := by
  unfold decStr at h
  rw [if_neg (by omega), if_neg (by omega)] at h
  rw [decStrAux_eq_digits m m le_rfl, decStrAux_eq_digits n n le_rfl] at h
  have h2 := List.reverse_injective h
  have h3 : Nat.digits 10 m = Nat.digits 10 n :=
    map_digitChar_inj _ _ (fun d hd => Nat.digits_lt_base (by norm_num) hd)
      (fun d hd => Nat.digits_lt_base (by norm_num) hd) h2
  calc m = Nat.ofDigits 10 (Nat.digits 10 m) := (Nat.ofDigits_digits 10 m).symm
    _ = Nat.ofDigits 10 (Nat.digits 10 n) := by rw [h3]
    _ = n := Nat.ofDigits_digits 10 n

theorem candName_inj (stem suf : List Char) {m n : ℕ} (hm : 1 ≤ m) (hn : 1 ≤ n)
    (h : candName stem suf m = candName stem suf n) : m = n := by
  unfold candName at h
  have h1 := List.append_cancel_left h
  simp only [List.cons.injEq, true_and] at h1
  exact decStr_inj hm hn (List.append_cancel_right h1)

theorem findFree_shape (taken : List (List Char)) (stem suf : List Char) :
    ∀ fuel i, ∃ k, i ≤ k ∧ findFree taken stem suf fuel i = candName stem suf k := by
  intro fuel
  induction fuel with
  | zero => intro i; exact ⟨i, le_rfl, rfl⟩
  | succ f ih =>
    intro i
    by_cases hmem : candName stem suf i ∈ taken
    · rcases ih (i + 1) with ⟨k, hk1, hk2⟩
      exact ⟨k, by omega, by simp [findFree, hmem, hk2]⟩
    · exact ⟨i, le_rfl, by simp [findFree, hmem]⟩

theorem findFree_not_mem (taken : List (List Char)) (stem suf : List Char) :
    ∀ fuel i, ((List.range' i fuel).filter
        (fun j => decide (candName stem suf j ∈ taken))).length < fuel →
    findFree taken stem suf fuel i ∉ taken := by
  intro fuel
  induction fuel with
  | zero =>
    intro i h
    omega
  | succ f ih =>
    intro i hcount
    by_cases hmem : candName stem suf i ∈ taken
    · rw [List.range'_succ i f 1,
        List.filter_cons_of_pos (by simpa using hmem), List.length_cons] at hcount
      simp only [findFree, if_pos hmem]
      exact ih (i + 1) (by omega)
    · simp only [findFree, if_neg hmem]
      exact hmem

theorem cand_filter_le (taken : List (List Char)) (stem suf : List Char) (n : ℕ) :
    ((List.range' 1 n).filter (fun j => decide (candName stem suf j ∈ taken))).length
      ≤ taken.length := by
  set L := (List.range' 1 n).filter (fun j => decide (candName stem suf j ∈ taken)) with hL
  have hnodupL : L.Nodup := (List.nodup_range' 1 n 1 (by norm_num)).filter _
  have hone : ∀ j ∈ L, 1 ≤ j := by
    intro j hj
    have := List.mem_of_mem_filter hj
    exact (List.mem_range'_1.mp this).1
  have hnodupM : (L.map (candName stem suf)).Nodup := by
    apply List.Nodup.map_on ?_ hnodupL
    intro x hx y hy hxy
    exact candName_inj stem suf (hone x hx) (hone y hy) hxy
  have hsub : ∀ x ∈ L.map (candName stem suf), x ∈ taken := by
    intro x hx
    rcases List.mem_map.mp hx with ⟨j, hj, rfl⟩
    simpa using List.of_mem_filter hj
  have hcard : (L.map (candName stem suf)).toFinset.card = L.length := by
    rw [List.toFinset_card_of_nodup hnodupM, List.length_map]
  have hcardle : (L.map (candName stem suf)).toFinset.card ≤ taken.toFinset.card := by
    apply Finset.card_le_card
    intro x hx
    exact List.mem_toFinset.mpr (hsub x (List.mem_toFinset.mp hx))
  calc L.length = (L.map (candName stem suf)).toFinset.card := hcard.symm
    _ ≤ taken.toFinset.card := hcardle
    _ ≤ taken.length := taken.toFinset_card_le

/-- C7: the merge output path never collides with an existing path — the
`.geojson` suffix is appended when missing (case-insensitively checked), a
free base name is used unchanged, and an occupied base name gets a numeric
`_1`, `_2`, ... suffix before the extension of its final path segment (as
pathlib's `stem`/`suffix`/`with_name` work); hence a second run over the same
stem leaves the first run's output in place and returns a numerically
suffixed path. -/
theorem merge_output_collision_safe (taken : List (List Char)) (output_file : List Char) :
    merge_output_name taken output_file ∉ taken
    ∧ GEOJSON_EXT.isSuffixOf (toLowerS (ensureExt output_file)) = true
    ∧ (ensureExt output_file ∉ taken →
        merge_output_name taken output_file = ensureExt output_file)
    ∧ (ensureExt output_file ∈ taken → ∃ k, 1 ≤ k ∧
        merge_output_name taken output_file
          = candName (dirPart (ensureExt output_file)
                ++ (splitExtPy (lastSegment (ensureExt output_file))).1)
              (splitExtPy (lastSegment (ensureExt output_file))).2 k) := by
  refine ⟨?_, ?_, ?_, ?_⟩
  · unfold merge_output_name
    by_cases hmem : ensureExt output_file ∈ taken
    · rw [if_pos hmem]
      apply findFree_not_mem
      have := cand_filter_le taken
        (dirPart (ensureExt output_file)
          ++ (splitExtPy (lastSegment (ensureExt output_file))).1)
        (splitExtPy (lastSegment (ensureExt output_file))).2 (taken.length + 1)
      omega
    · rw [if_neg hmem]
      exact hmem
  · unfold ensureExt
    by_cases hsuf : GEOJSON_EXT.isSuffixOf (toLowerS output_file) = true
    · rw [if_pos hsuf]
      exact hsuf
    · rw [if_neg hsuf]
      have e1 : toLowerS (output_file ++ GEOJSON_EXT) = toLowerS output_file ++ GEOJSON_EXT := by
        unfold toLowerS
        rw [List.map_append]
        congr 1
      rw [e1]
      exact List.isSuffixOf_iff_suffix.mpr (List.suffix_append _ _)
  · intro hmem
    unfold merge_output_name
    rw [if_neg hmem]
  · intro hmem
    unfold merge_output_name
    rw [if_pos hmem]
    rcases findFree_shape taken
        (dirPart (ensureExt output_file)
          ++ (splitExtPy (lastSegment (ensureExt output_file))).1)
        (splitExtPy (lastSegment (ensureExt output_file))).2 (taken.length + 1) 1 with
      ⟨k, hk1, hk2⟩
    exact ⟨k, hk1, hk2⟩

/-- Witness for C7: merging to stem `out` with no existing file writes
`out.geojson`; a second run with `out.geojson` on disk does not overwrite it
and returns `out_1.geojson`; a directory-qualified hidden-file target
`dir/.geojson` (empty pathlib suffix) collides into `dir/.geojson_1`. -/
theorem merge_output_collision_safe_witness :
    merge_output_name [] "out".data = "out.geojson".data
    ∧ merge_output_name ["out.geojson".data] "out".data ∉ ["out.geojson".data]
    ∧ merge_output_name ["out.geojson".data] "out".data = "out_1.geojson".data
    ∧ merge_output_name ["dir/.geojson".data] "dir/.geojson".data = "dir/.geojson_1".data
    ∧ merge_output_name ["dir/a.geojson".data] "dir/a.geojson".data = "dir/a_1.geojson".data :=
  ⟨(merge_output_collision_safe [] "out".data).2.2.1 (by decide),
   (merge_output_collision_safe ["out.geojson".data] "out".data).1,
   by decide, by decide, by decide⟩

/-- C8 counterexample: `extract` does NOT abort with a raised error when zero
container files are found (or the source folder is missing — `Path.glob` on a
missing directory discovers nothing): at a concrete empty discovery it
returns normally with the all-zero summary, `errors = 0` and no outputs —
there is no raise path, unlike merge's `ValueError`/`FileNotFoundError`. -/
theorem extract_zero_files_no_error :
    (extract_embedded [] ["out"] ⟨[], []⟩).1 = zeroSummary ["out"]
    ∧ (extract_embedded [] ["out"] ⟨[], []⟩).1.errors = 0
    ∧ (extract_embedded [] ["out"] ⟨[], []⟩).1.outputs = [] :=
  ⟨rfl, rfl, rfl⟩

/-- C8 (amended): when zero matching container files are found (including an
invalid or missing source folder, which discovers zero containers), `extract`
does not raise: it returns the summary with every counter zero, an empty
outputs list and the resolved output root. -/
theorem extract_zero_files_returns_summary (OUT : DirPath) (fs0 : FS) :
    (extract_embedded [] OUT fs0).1 = zeroSummary OUT := rfl

theorem rmtree_no_prefix (fs : FS) (p : DirPath) :
    ∀ d ∈ (rmtree fs p).dirs, p.isPrefixOf d = false := by
  intro d hd
  unfold rmtree at hd
  simp only [List.mem_filter] at hd
  simpa using hd.2

/-- C9 counterexample: in a run that discovers zero container files, the
shared temp root still exists when `extract` returns — the early return skips
the final `shutil.rmtree(TEMP)` after `TEMP.mkdir` has already run. -/
theorem extract_zero_files_leaves_temp_root :
    (["out", "temp"] : DirPath) ∈ ((extract_embedded [] ["out"] ⟨[], []⟩).2).dirs := by
  decide

/-- C9 (amended): in every run that discovers at least one container file,
the shared temp root — and with it every per-container temporary working
directory, all of which live beneath it — is gone when `extract` returns; in
zero-container runs the temp root is created and left behind. -/
theorem extract_temp_root_removed (containers : List Container) (OUT : DirPath) (fs0 : FS)
    (hne : containers ≠ []) :
    ∀ d ∈ ((extract_embedded containers OUT fs0).2).dirs,
      (OUT ++ ["temp"]).isPrefixOf d = false := by
  have hcond : containers.isEmpty = false := by
    cases containers with
    | nil => exact absurd rfl hne
    | cons c rest => rfl
  intro d hd
  unfold extract_embedded at hd
  rw [hcond] at hd
  simp only [Bool.false_eq_true, if_false] at hd
  exact rmtree_no_prefix _ _ d hd

/-- Witness for C9 (amended): one container (whose archive even fails to
open): after the run the temp root `out/temp` no longer exists. -/
theorem extract_temp_root_removed_witness :
    (["out", "temp"] : DirPath) ∉ ((extract_embedded [failContainer] ["out"] ⟨[], []⟩).2).dirs :=
  fun hmem =>
    absurd (extract_temp_root_removed [failContainer] ["out"] ⟨[], []⟩ (by simp) _ hmem)
      (by decide)
